import Mathlib

/-!
Verification of the protanki-protocol core: a shallow embedding of the
codec, cipher, framing, registry and session layers of the repository,
with theorems checking the specification's claims against the code.

Machine bytes are modelled as `Nat` values below 256; bitwise operations
(`^^^`, `&&&`, `<<<`, `>>>`) coincide with the `u8`/`u32` operations of the
source on such values, and no operation used here can overflow a byte
except where an explicit reduction is written out.
-/

namespace Protanki

/-- Protocol error enumeration, translated from `ProtocolError` in
src/protocol/src/error.rs.  `io::Error` payloads and UTF-8 error details are
collapsed to bare constructors; `ConnectionClosedError` variants are inlined
as the three `Connection*` constructors. -/
inductive ProtocolError where
  | GenericError
  | PacketUnknownId (id : Int)
  | PacketTooLarge (n : Nat)
  | PacketTooSmall (n : Nat)
  | CodecVarIntTooLarge
  | CodecUtf8DecodeError
  | EnumInvalidOrdinal (value : Nat) (name : String)
  | EnumUnknown
  | IOError
  | ConnectionDisconnected
  | ConnectionReadError
  | ConnectionWriteError
  | ConnectionAborted
  | UnexpectedPacket
  deriving Repr, DecidableEq

/-- Varint `Length` encoder, translated from `impl Codeable for Length`,
`encode`, src/protocol/src/codec/basics.rs lines 23-41.  Produces the bytes
written to the writer. -/
def lengthEncode (target : Nat) : Except ProtocolError (List Nat) :=
  if target < 128 then
    .ok [target]
  else if target < 16384 then
    let encoded := (target &&& 16383) + 32768
    .ok [(encoded &&& 65280) >>> 8, encoded &&& 255]
  else if target < 4194304 then
    let encoded := (target &&& 4194303) + 12582912
    .ok [(encoded &&& 16711680) >>> 16, (encoded &&& 65280) >>> 8, encoded &&& 255]
  else
    .error .CodecVarIntTooLarge

/-- Varint `Length` decoder, translated from `impl Codeable for Length`,
`decode`, src/protocol/src/codec/basics.rs lines 43-59.  Reads from a byte
list and returns the decoded value together with the unread rest; a
`read_u8` hitting the end of input is the source's io error. -/
def lengthDecode (input : List Nat) : Except ProtocolError (Nat × List Nat) :=
  match input with
  | [] => .error .IOError
  | v0 :: rest0 =>
    if v0 &&& 128 == 0 then
      .ok (v0, rest0)
    else
      match rest0 with
      | [] => .error .IOError
      | v1 :: rest1 =>
        if v1 &&& 64 == 0 then
          .ok ((v0 <<< 8) + v1, rest1)
        else
          match rest1 with
          | [] => .error .IOError
          | v2 :: rest2 => .ok ((v0 <<< 16) + (v1 <<< 8) + v2, rest2)

/-! ## XOR cipher (src/protocol/src/crypto/xor.rs, mod.rs, plain.rs) -/

/-- Cipher role, translated from `CipherMode` in src/protocol/src/crypto/mod.rs. -/
inductive CipherMode where
  | Server
  | Client
  deriving Repr, DecidableEq

/-- State of the streaming XOR cipher, translated from the `XOrCipher` struct
in src/protocol/src/crypto/xor.rs lines 6-14.  The 8-byte key arrays are
lists of length 8; the `u8` offsets stay below 8 in every reachable state. -/
structure XOrCipher where
  decrypt_key : List Nat
  decrypt_key_offset : Nat
  encrypt_key : List Nat
  encrypt_key_offset : Nat
  deriving Repr, DecidableEq

/-- `XOrCipher::new`, src/protocol/src/crypto/xor.rs lines 24-50.  In Rust,
`seed ^ index << 3` parses as `seed ^ (index << 3)` because `<<` binds
tighter than `^`. -/
def XOrCipher.new (mode : CipherMode) (key : List Nat) : XOrCipher :=
  let seed := key.foldl (fun acc v => acc ^^^ v) 0
  let key_encrypt := (List.range 8).map (fun index =>
    match mode with
    | .Server => seed ^^^ (index <<< 3)
    | .Client => seed ^^^ (index <<< 3) ^^^ 87)
  let key_decrypt := (List.range 8).map (fun index =>
    match mode with
    | .Server => seed ^^^ (index <<< 3) ^^^ 87
    | .Client => seed ^^^ (index <<< 3))
  { decrypt_key := key_decrypt
    decrypt_key_offset := 0
    encrypt_key := key_encrypt
    encrypt_key_offset := 0 }

/-- One loop iteration of `XOrCipher::encrypt`, src/protocol/src/crypto/xor.rs
lines 59-64, acting on a single buffer byte: returns the updated key, the
updated offset and the output byte.  Indexing is total here (`getD`/`set`);
it agrees with the panicking Rust indexing because every reachable offset is
below the key length 8. -/
def xorEncryptByte (key : List Nat) (off : Nat) (value : Nat) :
    List Nat × Nat × Nat :=
  (key.set off value, off ^^^ (value &&& 7), value ^^^ key.getD off 0)

/-- `XOrCipher::encrypt` over a whole buffer (src/protocol/src/crypto/xor.rs
lines 58-67), threading key and offset through the bytes. -/
def xorEncryptBytes (key : List Nat) (off : Nat) :
    List Nat → List Nat × Nat × List Nat
  | [] => (key, off, [])
  | value :: rest =>
    let step := xorEncryptByte key off value
    let tail := xorEncryptBytes step.1 step.2.1 rest
    (tail.1, tail.2.1, step.2.2 :: tail.2.2)

/-- One loop iteration of `XOrCipher::decrypt`, src/protocol/src/crypto/xor.rs
lines 70-74: the key slot receives `value ^ key[off]` (the recovered
plaintext), the output byte is that stored value, and the offset is XORed
with its low three bits. -/
def xorDecryptByte (key : List Nat) (off : Nat) (value : Nat) :
    List Nat × Nat × Nat :=
  let key1 := key.set off (value ^^^ key.getD off 0)
  (key1, off ^^^ (key1.getD off 0 &&& 7), key1.getD off 0)

/-- `XOrCipher::decrypt` over a whole buffer (src/protocol/src/crypto/xor.rs
lines 69-78). -/
def xorDecryptBytes (key : List Nat) (off : Nat) :
    List Nat → List Nat × Nat × List Nat
  | [] => (key, off, [])
  | value :: rest =>
    let step := xorDecryptByte key off value
    let tail := xorDecryptBytes step.1 step.2.1 rest
    (tail.1, tail.2.1, step.2.2 :: tail.2.2)

/-- `Cipher::encrypt` for `XOrCipher`: buffer in, mutated state and
ciphertext out. -/
def XOrCipher.encrypt (c : XOrCipher) (buffer : List Nat) :
    XOrCipher × List Nat :=
  let r := xorEncryptBytes c.encrypt_key c.encrypt_key_offset buffer
  ({ c with encrypt_key := r.1, encrypt_key_offset := r.2.1 }, r.2.2)

/-- `Cipher::decrypt` for `XOrCipher`: buffer in, mutated state and
plaintext out. -/
def XOrCipher.decrypt (c : XOrCipher) (buffer : List Nat) :
    XOrCipher × List Nat :=
  let r := xorDecryptBytes c.decrypt_key c.decrypt_key_offset buffer
  ({ c with decrypt_key := r.1, decrypt_key_offset := r.2.1 }, r.2.2)

/-- Encrypt a sequence of buffers through successive `encrypt` calls,
threading the cipher state (the "arbitrary chunk boundaries" of the spec). -/
def XOrCipher.encryptChunks (c : XOrCipher) :
    List (List Nat) → XOrCipher × List (List Nat)
  | [] => (c, [])
  | chunk :: rest =>
    let step := c.encrypt chunk
    let tail := step.1.encryptChunks rest
    (tail.1, step.2 :: tail.2)

/-- Decrypt a sequence of buffers through successive `decrypt` calls,
threading the cipher state. -/
def XOrCipher.decryptChunks (c : XOrCipher) :
    List (List Nat) → XOrCipher × List (List Nat)
  | [] => (c, [])
  | chunk :: rest =>
    let step := c.decrypt chunk
    let tail := step.1.decryptChunks rest
    (tail.1, step.2 :: tail.2)

/-! ## Reference definitions for the cipher, written from the spec's words
(spec.md §3 "Cipher state"), used only to compare against the definitions
translated from the source. -/

/-- Spec reference: "let `seed = XOR of all seed bytes`". -/
def spec_seedByte (key : List Nat) : Nat :=
  key.foldl (fun acc v => acc ^^^ v) 0

/-- Spec reference: "for i in 0..8, `k_a[i] = seed XOR (i<<3)`". -/
def spec_kA (key : List Nat) (i : Nat) : Nat :=
  spec_seedByte key ^^^ (i <<< 3)

/-- Spec reference: "`k_b[i] = k_a[i] XOR 0x57`". -/
def spec_kB (key : List Nat) (i : Nat) : Nat :=
  spec_kA key i ^^^ 87

/-- Spec reference, encrypt lane: "output = plain XOR k[off]; then
k[off] ← plain; off ← off XOR (plain & 7)", as (new key, new offset, output). -/
def specEncryptStep (key : List Nat) (off plain : Nat) : List Nat × Nat × Nat :=
  (key.set off plain, off ^^^ (plain &&& 7), plain ^^^ key.getD off 0)

/-- Spec reference, decrypt lane: "let c = cipher; plain = c XOR k[off];
k[off] ← plain; off ← off XOR (plain & 7)", as (new key, new offset, plain). -/
def specDecryptStep (key : List Nat) (off c : Nat) : List Nat × Nat × Nat :=
  let plain := c ^^^ key.getD off 0
  (key.set off plain, off ^^^ (plain &&& 7), plain)

/-! ## Association-list helpers standing in for `BTreeMap` (lookup, ordered
insert-or-replace, remove).  The registries keep keys unique. -/

/-- Lookup in an association list (`BTreeMap::get`). -/
def alLookup {α : Type _} (k : Nat) : List (Nat × α) → Option α
  | [] => none
  | kv :: rest => if k = kv.1 then some kv.2 else alLookup k rest

/-- Ordered insert-or-replace (`BTreeMap::insert`). -/
def alInsert {α : Type _} (k : Nat) (v : α) : List (Nat × α) → List (Nat × α)
  | [] => [(k, v)]
  | kv :: rest =>
    if k < kv.1 then (k, v) :: kv :: rest
    else if k = kv.1 then (k, v) :: rest
    else kv :: alInsert k v rest

/-- Remove by key (`BTreeMap::remove`); keys are unique so removing the
first match removes the only one. -/
def alRemove {α : Type _} (k : Nat) : List (Nat × α) → List (Nat × α)
  | [] => []
  | kv :: rest => if k = kv.1 then rest else kv :: alRemove k rest

/-! ## Packets, unknown packet, packet registry
(src/protocol/src/packets/mod.rs, unknown.rs, registry.rs) -/

/-- `PacketDirection`, src/protocol/src/packets/mod.rs lines 18-23. -/
inductive PacketDirection where
  | Unknown
  | S2C
  | C2S
  deriving Repr, DecidableEq

/-- Outcome of calling an accessor on a packet: either the call panics
(Rust `todo!()`) or it returns a value. -/
inductive AccessorOutcome (α : Type _) where
  | panics
  | returns (a : α)
  deriving Repr, DecidableEq

/-- Reinterpretation `i as u32` of a signed 32-bit value. -/
def i32AsU32 (i : Int) : Nat := (i % 4294967296).toNat

/-- Reinterpretation `n as i32` of an unsigned 32-bit value. -/
def u32AsI32 (n : Nat) : Int :=
  if n < 2147483648 then (n : Int) else (n : Int) - 4294967296

/-- The opaque record for unregistered message ids, translated from the
`UnknownPacket` struct in src/protocol/src/packets/unknown.rs lines 7-12.
Field names carry a `_value` suffix because the Rust accessor methods of the
same names are modelled as Lean functions below. -/
structure UnknownPacketM where
  packet_id_value : Nat
  direction_value : PacketDirection
  payload : List Nat
  deriving Repr, DecidableEq

/-- `UnknownPacket::direction`, src/protocol/src/packets/unknown.rs lines
59-61: the body is `todo!()`, so every call panics. -/
def UnknownPacketM.direction (_ : UnknownPacketM) : AccessorOutcome PacketDirection :=
  .panics

/-- `UnknownPacket::model_id`, src/protocol/src/packets/unknown.rs lines
63-65: returns `(-1i32) as u32`. -/
def UnknownPacketM.model_id (_ : UnknownPacketM) : AccessorOutcome Nat :=
  .returns (i32AsU32 (-1))

/-- `UnknownPacket::packet_id`, src/protocol/src/packets/unknown.rs lines
55-57: returns the stored id. -/
def UnknownPacketM.packet_id (u : UnknownPacketM) : AccessorOutcome Nat :=
  .returns u.packet_id_value

/-- A decoded packet: either an instance of a registered message type
(represented by its id and whatever the registered decoder produced), or the
opaque unknown-packet record. -/
inductive PacketM where
  | known (packet_id : Nat) (data : List Nat)
  | unknownPkt (u : UnknownPacketM)
  deriving Repr, DecidableEq

/-- The packet registry, translated from `PacketRegistry` in
src/protocol/src/packets/registry.rs lines 28-31.  A registered packet type
is represented by its decoder: payload bytes in, decoded data and the number
of bytes the decoder consumed out. -/
structure PacketRegistry where
  packets : List (Nat × (List Nat → Except ProtocolError (List Nat × Nat)))
  decode_as_unknown : Bool

/-- `PacketRegistry::decode`, src/protocol/src/packets/registry.rs lines
56-72.  For an unregistered id: in permissive mode an `UnknownPacket` with
direction `Unknown` is synthesized and its `decode` (`read_to_end`,
src/protocol/src/packets/unknown.rs lines 72-75) takes every remaining
reader byte as payload; otherwise the error carries `packet_id as i32`.
Returns the packet and the reader bytes consumed. -/
def PacketRegistry.decode (reg : PacketRegistry) (reader : List Nat)
    (packet_id : Nat) : Except ProtocolError (PacketM × Nat) :=
  match alLookup packet_id reg.packets with
  | some registered =>
    (registered reader).map (fun r => (PacketM.known packet_id r.1, r.2))
  | none =>
    if reg.decode_as_unknown then
      .ok (.unknownPkt ⟨packet_id, .Unknown, reader⟩, reader.length)
    else
      .error (.PacketUnknownId (u32AsI32 packet_id))

/-! ## Connection / framer (src/protocol/src/connection.rs)

The model keeps the fields of `Connection` that carry protocol state:
cipher, disconnect flag, receive buffer with fill index, send buffer and
packet registry.  The socket address, the waker slot and the debug-log
filter only produce side effects (wakeups and log lines) and are omitted;
log statements (`trace!`, `warn!`, `debug!`) are dropped throughout. -/

/-- The connection's boxed cipher: `PlainCipher` (identity, crypto/plain.rs)
before the handshake, `XOrCipher` afterwards. -/
inductive CipherImpl where
  | plain
  | xorC (c : XOrCipher)
  deriving Repr, DecidableEq

/-- `Cipher::encrypt` through the trait object. -/
def CipherImpl.encrypt : CipherImpl → List Nat → CipherImpl × List Nat
  | .plain, buffer => (.plain, buffer)
  | .xorC c, buffer =>
    let r := c.encrypt buffer
    (.xorC r.1, r.2)

/-- `Cipher::decrypt` through the trait object. -/
def CipherImpl.decrypt : CipherImpl → List Nat → CipherImpl × List Nat
  | .plain, buffer => (.plain, buffer)
  | .xorC c, buffer =>
    let r := c.decrypt buffer
    (.xorC r.1, r.2)

/-- `Poll<T>`. -/
inductive PollM (α : Type _) where
  | pending
  | ready (a : α)
  deriving Repr, DecidableEq

/-- Big-endian `u32` read (`read_u32::<BigEndian>`) from the front of a byte
list; bytes are below 256. -/
def readU32BE (l : List Nat) : Nat :=
  l.getD 0 0 * 16777216 + l.getD 1 0 * 65536 + l.getD 2 0 * 256 + l.getD 3 0

/-- Big-endian `u32` write (`write_u32::<BigEndian>`). -/
def be32 (n : Nat) : List Nat :=
  [(n >>> 24) &&& 255, (n >>> 16) &&& 255, (n >>> 8) &&& 255, n &&& 255]

/-- Connection state, translated from the `Connection` struct in
src/protocol/src/connection.rs lines 64-81 (protocol-relevant fields). -/
structure Connection where
  crypt_context : CipherImpl
  disconnected : Bool
  recv_buffer : List Nat
  recv_buffer_index : Nat
  send_buffer : List Nat
  packet_registry : PacketRegistry

/-- A packet handed to `send_packet`, reduced to its wire identity: the id
written into the header and the bytes its `encode` writes. -/
structure OutPacketM where
  packet_id : Nat
  body : List Nat

/-- `Connection::send_packet`, src/protocol/src/connection.rs lines 118-144:
write a zero length placeholder and the id, encode the payload, patch the
total length at offset 0, encrypt bytes `[8..length]` in place and append
the frame to the send buffer.  The source contains no size check, so with
the payload bytes given the function always succeeds; waking the writer and
the trace log are side effects outside the model. -/
def Connection.send_packet (c : Connection) (p : OutPacketM) :
    Except ProtocolError Connection :=
  let packet_length := 8 + p.body.length
  let enc := c.crypt_context.encrypt p.body
  .ok { c with
          crypt_context := enc.1,
          send_buffer :=
            c.send_buffer ++ (be32 packet_length ++ be32 p.packet_id ++ enc.2) }

/-- `Connection::try_parse_read_buffer`, src/protocol/src/connection.rs lines
171-212.  The unread-payload check at lines 201-203 only logs a warning (the
consumed count returned by the registry decoder is otherwise unused), and the
buffer is compacted by `copy_within(packet_length.., 0)` plus an index
decrement, which this model reproduces byte for byte. -/
def Connection.try_parse_read_buffer (c : Connection) :
    Connection × PollM (Except ProtocolError PacketM) :=
  if c.recv_buffer_index < 8 then (c, .pending) else
  let valid := c.recv_buffer.take c.recv_buffer_index
  let packet_length := readU32BE valid
  let packet_id := readU32BE (valid.drop 4)
  if packet_length > 1024 * 1024 * 64 then
    (c, .ready (.error (.PacketTooLarge packet_length)))
  else if packet_length < 8 then
    (c, .ready (.error (.PacketTooSmall packet_length)))
  else if c.recv_buffer_index < packet_length then
    (if c.recv_buffer.length < packet_length then
      { c with recv_buffer :=
          c.recv_buffer ++ List.replicate (packet_length - c.recv_buffer.length) 0 }
     else c, .pending)
  else
    let payload := (c.recv_buffer.take packet_length).drop 8
    let dec := c.crypt_context.decrypt payload
    let buf1 := c.recv_buffer.take 8 ++ dec.2 ++ c.recv_buffer.drop packet_length
    let c1 := { c with crypt_context := dec.1, recv_buffer := buf1 }
    match c.packet_registry.decode dec.2 packet_id with
    | .error e => (c1, .ready (.error e))
    | .ok pr =>
      ({ c1 with
          recv_buffer := buf1.drop packet_length ++ buf1.drop (buf1.length - packet_length),
          recv_buffer_index := c.recv_buffer_index - packet_length },
       .ready (.ok pr.1))

/-- One `poll_recv` outcome of the socket abstraction
(src/protocol/src/socket.rs): bytes read into the buffer (`[]` is the
`Ok(0)` end-of-stream), or a read error. -/
inductive SockRecv where
  | bytes (data : List Nat)
  | errRecv
  deriving Repr, DecidableEq

/-- One `poll_send` outcome: the byte count the socket accepted, or a write
error. -/
inductive SockSend where
  | accepts (n : Nat)
  | errSend
  deriving Repr, DecidableEq

/-- The socket as the scripts of results its two poll operations will
return; an exhausted script is a socket that returns `Poll::Pending`. -/
structure SocketM where
  recv_script : List SockRecv
  send_script : List SockSend
  deriving Repr, DecidableEq

/-- Overwrite `buf[i..i+data.length]` with `data` (the socket writing into
`&mut recv_buffer[index..]`); scripts are chosen so the write fits. -/
def overwriteAt (buf : List Nat) (i : Nat) (data : List Nat) : List Nat :=
  buf.take i ++ data ++ buf.drop (i + data.length)

/-- The buffer growth at the top of `Connection::poll_incoming`,
src/protocol/src/connection.rs lines 215-217. -/
def Connection.grow_recv (c : Connection) : Connection :=
  if c.recv_buffer.length - c.recv_buffer_index < 1024 then
    { c with recv_buffer := c.recv_buffer ++ List.replicate 1024 0 }
  else c

/-- The parse/read loop of `Connection::poll_incoming`,
src/protocol/src/connection.rs lines 219-237, consuming the socket's read
script. -/
def Connection.poll_incoming_loop (c : Connection) :
    List SockRecv →
    Connection × List SockRecv × PollM (Except ProtocolError PacketM)
  | [] =>
    match c.try_parse_read_buffer with
    | (c1, .ready r) => (c1, [], .ready r)
    | (c1, .pending) => (c1, [], .pending)
  | ev :: rest =>
    match c.try_parse_read_buffer with
    | (c1, .ready r) => (c1, ev :: rest, .ready r)
    | (c1, .pending) =>
      match ev with
      | .bytes data =>
        if data.isEmpty then (c1, rest, .ready (.error .ConnectionDisconnected))
        else
          Connection.poll_incoming_loop
            { c1 with
                recv_buffer := overwriteAt c1.recv_buffer c1.recv_buffer_index data,
                recv_buffer_index := c1.recv_buffer_index + data.length }
            rest
      | .errRecv => (c1, rest, .ready (.error .ConnectionReadError))

/-- `Connection::poll_incoming`, src/protocol/src/connection.rs lines
214-238: grow the buffer, then loop parsing and reading. -/
def Connection.poll_incoming (c : Connection) (script : List SockRecv) :
    Connection × List SockRecv × PollM (Except ProtocolError PacketM) :=
  Connection.poll_incoming_loop c.grow_recv script

/-- `Connection::poll_outgoing`, src/protocol/src/connection.rs lines
240-253: drain the send buffer while the socket accepts bytes.  `some e`
stands for `Poll::Ready(Err(..))`; `none` for the `Poll::Pending` exits
(buffer drained or socket pending). -/
def Connection.poll_outgoing (c : Connection) :
    List SockSend → Connection × List SockSend × Option ProtocolError
  | [] => (c, [], none)
  | ev :: rest =>
    if c.send_buffer.isEmpty then (c, ev :: rest, none)
    else
      match ev with
      | .accepts n =>
        Connection.poll_outgoing { c with send_buffer := c.send_buffer.drop n } rest
      | .errSend => (c, rest, some .ConnectionWriteError)

/-- `Connection::poll_io`, src/protocol/src/connection.rs lines 255-267:
outgoing first, then incoming. -/
def Connection.poll_io (c : Connection) (sock : SocketM) :
    Connection × SocketM × PollM (Except ProtocolError PacketM) :=
  let og := Connection.poll_outgoing c sock.send_script
  match og.2.2 with
  | some e => (og.1, { sock with send_script := og.2.1 }, .ready (.error e))
  | none =>
    let ic := Connection.poll_incoming og.1 sock.recv_script
    (ic.1, { recv_script := ic.2.1, send_script := og.2.1 }, ic.2.2)

/-- Result of one `Stream::poll_next` on the connection: pending, an item,
or the terminal `Ready(None)`. -/
inductive PollNext where
  | pendingNext
  | item (r : Except ProtocolError PacketM)
  | terminated
  deriving Repr

/-- `impl Stream for Connection`, `poll_next`, src/protocol/src/connection.rs
lines 273-287: a disconnected connection is terminal; an error from
`poll_io` marks the connection disconnected and is yielded once. -/
def Connection.poll_next (c : Connection) (sock : SocketM) :
    Connection × SocketM × PollNext :=
  if c.disconnected then (c, sock, .terminated)
  else
    let r := c.poll_io sock
    match r.2.2 with
    | .ready (.ok pkt) => (r.1, r.2.1, .item (.ok pkt))
    | .ready (.error e) => ({ r.1 with disconnected := true }, r.2.1, .item (.error e))
    | .pending => (r.1, r.2.1, .pendingNext)

/-! ## Packet handler registry (src/src/packet_handler.rs)

The registry code is polymorphic over the boxed handlers it stores.  To
reason about re-entrant mutation the handlers are instantiated with a
concrete shape: a handler is a list of registry actions it performs each
time its `handle_packet` runs, plus the result it then returns (`true` for
`Ok(())`).  Registered handlers may themselves carry further handlers to
register, hence the mutual inductive. -/

mutual

/-- A handler instance: the registry calls it performs inside
`handle_packet`, and whether `handle_packet` returns `Ok`. -/
inductive HandlerB where
  | mk (actions : List RegAction) (ok : Bool)

/-- A registry call a handler performs during `handle_packet`. -/
inductive RegAction where
  | registerH (h : HandlerB)
  | removeH (id : Nat)

end

/-- The actions a handler performs per `handle_packet` call. -/
def HandlerB.actions : HandlerB → List RegAction
  | .mk a _ => a

/-- Whether the handler's `handle_packet` returns `Ok`. -/
def HandlerB.ok : HandlerB → Bool
  | .mk _ o => o

/-- An action whose removal target (if any) refers to an id at most `bound`
— i.e. an id that existed when the dispatch began; handlers can only remove
ids they obtained from earlier registrations. -/
def RegAction.remOk (a : RegAction) (bound : Nat) : Bool :=
  match a with
  | .registerH _ => true
  | .removeH id => if id ≤ bound then true else false

/-- A handler whose own `handle_packet` returns `Ok` and whose registered
handlers' `handle_packet`s return `Ok` as well. -/
def HandlerB.wellBehaved : HandlerB → Bool
  | .mk acts o =>
    o && acts.all (fun a =>
      match a with
      | .registerH h => h.ok
      | .removeH _ => true)

/-- `PacketHandlerRegistry`, src/src/packet_handler.rs lines 19-24: the
handler `BTreeMap` (association list with unique ascending keys), the atomic
id counter, and the deferred-updates `BTreeMap` used while the handler map
is borrowed for iteration. -/
structure PacketHandlerRegistry where
  handler : List (Nat × HandlerB)
  handler_index : Nat
  pending_handler_updates : List (Nat × Option HandlerB)

/-- `register_handler` when the handler map is free (`try_borrow_mut`
succeeds), src/src/packet_handler.rs lines 27-40: a fresh id
`1 + fetch_add(1)` and a direct insert. -/
def PacketHandlerRegistry.register_handler (st : PacketHandlerRegistry)
    (h : HandlerB) : PacketHandlerRegistry × Nat :=
  let handler_id := 1 + st.handler_index
  ({ st with
      handler_index := st.handler_index + 1,
      handler := alInsert handler_id h st.handler }, handler_id)

/-- `register_handler` while the map is borrowed for iteration
(`try_borrow_mut` fails): the insertion is deferred. -/
def PacketHandlerRegistry.register_handler_during (st : PacketHandlerRegistry)
    (h : HandlerB) : PacketHandlerRegistry × Nat :=
  let handler_id := 1 + st.handler_index
  ({ st with
      handler_index := st.handler_index + 1,
      pending_handler_updates :=
        alInsert handler_id (some h) st.pending_handler_updates }, handler_id)

/-- `remove_handler` when the map is free, src/src/packet_handler.rs lines
42-51. -/
def PacketHandlerRegistry.remove_handler (st : PacketHandlerRegistry)
    (handler_id : Nat) : PacketHandlerRegistry :=
  { st with handler := alRemove handler_id st.handler }

/-- `remove_handler` while the map is borrowed for iteration: the removal is
deferred. -/
def PacketHandlerRegistry.remove_handler_during (st : PacketHandlerRegistry)
    (handler_id : Nat) : PacketHandlerRegistry :=
  { st with pending_handler_updates :=
      alInsert handler_id none st.pending_handler_updates }

/-- Execute one registry call made from inside `handle_packet`; the map is
borrowed by the iteration, so both calls defer. -/
def runRegAction (st : PacketHandlerRegistry) : RegAction → PacketHandlerRegistry
  | .registerH h => (st.register_handler_during h).1
  | .removeH id => st.remove_handler_during id

/-- One handler's `handle_packet` call: perform its registry actions, report
its result. -/
def runObserve (st : PacketHandlerRegistry) (h : HandlerB) :
    PacketHandlerRegistry × Bool :=
  (h.actions.foldl runRegAction st, h.ok)

/-- The iteration inside `PacketHandlerRegistry::handle`, src/src/
packet_handler.rs lines 54-57: visit the borrowed map's entries in key
order; an `Err` from a handler aborts via `?`.  Returns the final state, the
ids whose handlers were invoked, and whether all of them returned `Ok`. -/
def dispatchGo (st : PacketHandlerRegistry) :
    List (Nat × HandlerB) → PacketHandlerRegistry × List Nat × Bool
  | [] => (st, [], true)
  | ih :: rest =>
    let ob := runObserve st ih.2
    if ob.2 then
      let tail := dispatchGo ob.1 rest
      (tail.1, ih.1 :: tail.2.1, tail.2.2)
    else (ob.1, [ih.1], false)

/-- One deferred update applied to the handler map: insert for `Some`,
remove for `None` (the loop body of `commit_post_handle_updates`,
src/src/packet_handler.rs lines 88-94). -/
def commitStep (m : List (Nat × HandlerB)) (kv : Nat × Option HandlerB) :
    List (Nat × HandlerB) :=
  match kv.2 with
  | some v => alInsert kv.1 v m
  | none => alRemove kv.1 m

/-- `commit_post_handle_updates`, src/src/packet_handler.rs lines 79-95:
drain the deferred updates into the handler map, in pending-key order. -/
def commit_post_handle_updates (st : PacketHandlerRegistry) :
    PacketHandlerRegistry :=
  { st with
      pending_handler_updates := [],
      handler := st.pending_handler_updates.foldl commitStep st.handler }

/-- `PacketHandlerRegistry::handle`, src/src/packet_handler.rs lines 53-62:
iterate the handlers over the packet, then (on success) commit the deferred
updates; an `Err` propagates before the commit runs. -/
def PacketHandlerRegistry.handle (st : PacketHandlerRegistry) :
    PacketHandlerRegistry × List Nat × Bool :=
  let d := dispatchGo st st.handler
  if d.2.2 then (commit_post_handle_updates d.1, d.2.1, true)
  else (d.1, d.2.1, false)

/-! ## Task handle / session driver poll order (src/protocol/src/session.rs,
src/src/packet_handler.rs `TaskHandler`)

While a `TaskHandle` exists it holds `&mut Session`, so the session makes
progress only inside `TaskHandle::poll`.  The composite is modelled as a
state machine over the session fields the task path touches: the disconnect
flag, whether the `TaskHandler` is still registered, the task's pending
match, the one-shot channel slot, and the script of `Connection::poll_next`
outcomes (decoded packets, a clean close, a connection error). -/

/-- One `connection.poll_next_unpin` outcome inside `Session::poll`. -/
inductive ConnEvent (P : Type _) where
  | packet (p : P)
  | closedConn
  | connError
  deriving Repr, DecidableEq

/-- The session/task composite state. -/
structure SessionSim (P R : Type _) where
  disconnected : Bool
  handler_registered : Bool
  task_matched : Option R
  channel : Option (Except String R)
  events : List (ConnEvent P)
  deriving Repr

/-- `impl Future for Session`, `poll`, src/protocol/src/session.rs lines
162-194, specialised to a registry holding one `TaskHandler`
(src/src/packet_handler.rs lines 103-127) around a task that matches
packets with `matcher` and keeps its first match.

Step order, as in the source: a disconnected session is `Ready`; otherwise
`packet_handler.poll` runs first — the `TaskHandler` polls the task, and if
it has matched, sends the result into the one-shot channel, returns
ready-ok and is removed — then the connection loop runs: a decoded packet is
dispatched to `handle_packet` (the task records a match) and the session
returns `Pending` after waking ("only handle one packet at the time"); a
`Ready(None)` from the connection completes the session; an `Err` marks it
disconnected and the next loop iteration of the source observes the
connection terminal, completing the session in the same poll. -/
def sessionPoll {P R : Type _} (matcher : P → Option R) (st : SessionSim P R) :
    SessionSim P R × PollM Unit :=
  if st.disconnected then (st, .ready ()) else
  let st1 :=
    if st.handler_registered then
      match st.task_matched with
      | some v => { st with channel := some (.ok v), handler_registered := false }
      | none => st
    else st
  match st1.events with
  | [] => (st1, .pending)
  | .packet p :: rest =>
    let matched :=
      if st1.handler_registered then
        match st1.task_matched with
        | some v => some v
        | none => matcher p
      else st1.task_matched
    ({ st1 with events := rest, task_matched := matched }, .pending)
  | .closedConn :: rest => ({ st1 with events := rest }, .ready ())
  | .connError :: rest => ({ st1 with events := rest, disconnected := true }, .ready ())

/-- `impl Future for TaskHandle`, `poll`, src/protocol/src/session.rs lines
31-42: poll the session first — if it is `Ready`, resolve with the
"client disconnected" error — and only otherwise poll the one-shot
receiver.  Receiving consumes the channel value. -/
def pollTaskHandle {P R : Type _} (matcher : P → Option R)
    (st : SessionSim P R) : SessionSim P R × PollM (Except String R) :=
  let sp := sessionPoll matcher st
  match sp.2 with
  | .ready _ => (sp.1, .ready (.error "client disconnected"))
  | .pending =>
    match sp.1.channel with
    | some r => ({ sp.1 with channel := none }, .ready r)
    | none => (sp.1, .pending)

/-! ## Concrete states used by witnesses and counterexamples -/

/-- A socket whose both poll operations return `Pending`. -/
def sockEmpty : SocketM := { recv_script := [], send_script := [] }

/-- Connection holding a full frame `length=12, id=5`, payload `9,9,9,9`,
followed by 2 extra buffered bytes; the registered decoder for id 5 succeeds
without consuming any payload byte. -/
def c4Conn : Connection :=
  { crypt_context := .plain
    disconnected := false
    recv_buffer := [0, 0, 0, 12, 0, 0, 0, 5, 9, 9, 9, 9, 7, 8]
    recv_buffer_index := 14
    send_buffer := []
    packet_registry := { packets := [(5, fun _ => .ok ([], 0))]
                         decode_as_unknown := false } }

/-- Connection whose buffered header declares length 4 (< 8). -/
def c5ConnSmall : Connection :=
  { crypt_context := .plain
    disconnected := false
    recv_buffer := [0, 0, 0, 4, 0, 0, 0, 0]
    recv_buffer_index := 8
    send_buffer := []
    packet_registry := { packets := [], decode_as_unknown := false } }

/-- Connection whose buffered header declares length `0xFF000000`
(> 64 MiB). -/
def c5ConnLarge : Connection :=
  { crypt_context := .plain
    disconnected := false
    recv_buffer := [255, 0, 0, 0, 0, 0, 0, 0]
    recv_buffer_index := 8
    send_buffer := []
    packet_registry := { packets := [], decode_as_unknown := false } }

/-- Connection holding the spec's example frame `length=12, id=999,
payload=[0xDE,0xAD,0xBE,0xEF]`, with an empty catalog in strict mode. -/
def c6ConnStrict : Connection :=
  { crypt_context := .plain
    disconnected := false
    recv_buffer := [0, 0, 0, 12, 0, 0, 3, 231, 222, 173, 190, 239]
    recv_buffer_index := 12
    send_buffer := []
    packet_registry := { packets := [], decode_as_unknown := false } }

/-- Same frame as `c6ConnStrict` with the catalog in permissive
(allow-unknown) mode. -/
def c6ConnPermissive : Connection :=
  { crypt_context := .plain
    disconnected := false
    recv_buffer := [0, 0, 0, 12, 0, 0, 3, 231, 222, 173, 190, 239]
    recv_buffer_index := 12
    send_buffer := []
    packet_registry := { packets := [], decode_as_unknown := true } }

/-- A handler that does nothing and succeeds. -/
def hQuiet : HandlerB := .mk [] true

/-- A handler that registers `hQuiet` during `handle_packet`. -/
def hRegistering : HandlerB := .mk [.registerH hQuiet] true

/-- A handler with id 2 that removes itself during `handle_packet`. -/
def hSelfRemoving : HandlerB := .mk [.removeH 2] true

/-- Registry fixture for the re-entrancy claim: three live handlers, ids
1..3, the first registering a new one and the second removing itself. -/
def c7Reg : PacketHandlerRegistry :=
  { handler := [(1, hRegistering), (2, hSelfRemoving), (3, hQuiet)]
    handler_index := 3
    pending_handler_updates := [] }

/-- Matcher for the task scenario: packet 7 resolves to 99. -/
def c8Matcher : Nat → Option Nat :=
  fun p => if p = 7 then some 99 else none

/-- Task scenario start state: the task handler is registered, nothing
matched yet, and the connection will deliver packet 7 and then a clean
close. -/
def c8St0 : SessionSim Nat Nat :=
  { disconnected := false
    handler_registered := true
    task_matched := none
    channel := none
    events := [.packet 7, .closedConn] }

/-- A fresh client-side connection with empty buffers. -/
def c9Conn : Connection :=
  { crypt_context := .plain
    disconnected := false
    recv_buffer := []
    recv_buffer_index := 0
    send_buffer := []
    packet_registry := { packets := [], decode_as_unknown := false } }

/-- A packet whose encoded frame (8 header bytes + body) is one byte larger
than the 64 MiB cap. -/
def c9BigPacket : OutPacketM :=
  { packet_id := 0, body := List.replicate 67108857 0 }

/-! ## Theorems -/

/-- Key array length is preserved along encryption. -/
theorem xorEncryptBytes_key_length (buf : List Nat) :
    ∀ key off, (xorEncryptBytes key off buf).1.length = key.length := by
  induction buf with
  | nil => intro key off; rfl
  | cons v rest ih =>
    intro key off
    simpa [xorEncryptBytes, xorEncryptByte] using
      ih (key.set off v) (off ^^^ (v &&& 7))

/-- Ciphertext has the length of the plaintext. -/
theorem xorEncryptBytes_out_length (buf : List Nat) :
    ∀ key off, (xorEncryptBytes key off buf).2.2.length = buf.length := by
  induction buf with
  | nil => intro key off; rfl
  | cons v rest ih =>
    intro key off
    simpa [xorEncryptBytes, xorEncryptByte] using
      ih (key.set off v) (off ^^^ (v &&& 7))

/-- Decryption output has the length of its input. -/
theorem xorDecryptBytes_out_length (buf : List Nat) :
    ∀ key off, (xorDecryptBytes key off buf).2.2.length = buf.length := by
  induction buf with
  | nil => intro key off; rfl
  | cons v rest ih =>
    intro key off
    simp only [xorDecryptBytes, xorDecryptByte, List.length_cons]
    rw [ih]

/-- The XOR offsets stay below 8. -/
theorem xorOffStep_lt (off v : Nat) (hoff : off < 8) : off ^^^ (v &&& 7) < 8 := by
  have h7 : v &&& 7 < 8 := by
    simpa using Nat.and_lt_two_pow v (show (7 : Nat) < 2 ^ 3 by decide)
  simpa using Nat.xor_lt_two_pow (n := 3) hoff h7

/-- Streaming the decrypt lane over ciphertext produced by the encrypt lane
from the same key and offset recovers the plaintext and leaves both lanes in
identical states. -/
theorem xorDecryptBytes_xorEncryptBytes (buf : List Nat) :
    ∀ key off, key.length = 8 → off < 8 →
      xorDecryptBytes key off (xorEncryptBytes key off buf).2.2 =
        ((xorEncryptBytes key off buf).1,
         (xorEncryptBytes key off buf).2.1, buf) := by
  induction buf with
  | nil => intro key off _ _; rfl
  | cons v rest ih =>
    intro key off hlen hoff
    have hv : (v ^^^ key.getD off 0) ^^^ key.getD off 0 = v :=
      Nat.xor_cancel_right _ _
    have hofflen : off < key.length := hlen ▸ hoff
    have hset : (key.set off v).getD off 0 = v := by
      simp [List.getD, List.getElem?_set, hofflen]
    simp only [xorEncryptBytes, xorDecryptBytes, xorEncryptByte, xorDecryptByte]
    rw [hv, hset]
    rw [ih (key.set off v) (off ^^^ (v &&& 7)) (by simpa using hlen)
      (xorOffStep_lt off v hoff)]

/-- Encryption distributes over appending, threading the cipher state. -/
theorem xorEncryptBytes_append (a b : List Nat) :
    ∀ key off,
      xorEncryptBytes key off (a ++ b) =
        ((xorEncryptBytes (xorEncryptBytes key off a).1
            (xorEncryptBytes key off a).2.1 b).1,
         (xorEncryptBytes (xorEncryptBytes key off a).1
            (xorEncryptBytes key off a).2.1 b).2.1,
         (xorEncryptBytes key off a).2.2 ++
           (xorEncryptBytes (xorEncryptBytes key off a).1
              (xorEncryptBytes key off a).2.1 b).2.2) := by
  induction a with
  | nil => intro key off; rfl
  | cons v rest ih =>
    intro key off
    simp only [List.cons_append, xorEncryptBytes, List.append_eq]
    rw [ih]

/-- Decryption distributes over appending, threading the cipher state. -/
theorem xorDecryptBytes_append (a b : List Nat) :
    ∀ key off,
      xorDecryptBytes key off (a ++ b) =
        ((xorDecryptBytes (xorDecryptBytes key off a).1
            (xorDecryptBytes key off a).2.1 b).1,
         (xorDecryptBytes (xorDecryptBytes key off a).1
            (xorDecryptBytes key off a).2.1 b).2.1,
         (xorDecryptBytes key off a).2.2 ++
           (xorDecryptBytes (xorDecryptBytes key off a).1
              (xorDecryptBytes key off a).2.1 b).2.2) := by
  induction a with
  | nil => intro key off; rfl
  | cons v rest ih =>
    intro key off
    simp only [List.cons_append, xorDecryptBytes, List.append_eq]
    rw [ih]

/-- Chunked encryption equals one-shot encryption of the concatenation. -/
theorem encryptChunks_flatten (chunks : List (List Nat)) :
    ∀ c : XOrCipher,
      (c.encryptChunks chunks).1 = (c.encrypt chunks.flatten).1 ∧
      (c.encryptChunks chunks).2.flatten = (c.encrypt chunks.flatten).2 := by
  induction chunks with
  | nil => intro c; exact ⟨rfl, rfl⟩
  | cons chunk rest ih =>
    intro c
    have h := ih (c.encrypt chunk).1
    constructor
    · show ((c.encrypt chunk).1.encryptChunks rest).1 = _
      rw [h.1]
      simp only [XOrCipher.encrypt, List.flatten_cons, xorEncryptBytes_append]
    · show ((c.encrypt chunk).2 :: ((c.encrypt chunk).1.encryptChunks rest).2).flatten = _
      simp only [List.flatten_cons]
      rw [h.2]
      simp only [XOrCipher.encrypt, List.flatten_cons, xorEncryptBytes_append]

/-- Chunked decryption equals one-shot decryption of the concatenation. -/
theorem decryptChunks_flatten (chunks : List (List Nat)) :
    ∀ c : XOrCipher,
      (c.decryptChunks chunks).1 = (c.decrypt chunks.flatten).1 ∧
      (c.decryptChunks chunks).2.flatten = (c.decrypt chunks.flatten).2 := by
  induction chunks with
  | nil => intro c; exact ⟨rfl, rfl⟩
  | cons chunk rest ih =>
    intro c
    have h := ih (c.decrypt chunk).1
    constructor
    · show ((c.decrypt chunk).1.decryptChunks rest).1 = _
      rw [h.1]
      simp only [XOrCipher.decrypt, List.flatten_cons, xorDecryptBytes_append]
    · show ((c.decrypt chunk).2 :: ((c.decrypt chunk).1.decryptChunks rest).2).flatten = _
      simp only [List.flatten_cons]
      rw [h.2]
      simp only [XOrCipher.decrypt, List.flatten_cons, xorDecryptBytes_append]

/-- C1: the varint `Length` encoder produces 1/2/3 bytes on the claimed
ranges and fails with `CodecVarIntTooLarge` above them, but the decoder does
NOT invert it: it keeps the width-flag bits and dispatches on bit 6 of the
second byte instead of the first, so `decode (encode 128) = 32896` (not 128)
and `decode (encode 16383)` even underruns the input.  This refutes the
claimed round-trip for every value from 128 up. -/
theorem c1_length_codec_bug :
    lengthEncode 0 = .ok [0] ∧
    lengthEncode 127 = .ok [127] ∧
    lengthEncode 128 = .ok [128, 128] ∧
    lengthEncode 16383 = .ok [191, 255] ∧
    lengthEncode 16384 = .ok [192, 64, 0] ∧
    lengthEncode 4194303 = .ok [255, 255, 255] ∧
    lengthEncode 4194304 = .error .CodecVarIntTooLarge ∧
    lengthDecode [0] = .ok (0, []) ∧
    lengthDecode [127] = .ok (127, []) ∧
    lengthDecode [128, 128] = .ok (32896, []) ∧
    lengthDecode [191, 255] = .error .IOError ∧
    lengthDecode [192, 64, 0] = .ok (12599296, []) :=
  ⟨rfl, rfl, rfl, rfl, rfl, rfl, rfl, rfl, rfl, rfl, rfl, rfl⟩

/-- C2: two XOR ciphers built from the same seed with opposite roles are
inverse stream transducers: however the plaintext is chunked into encrypt
calls on one side and however the resulting ciphertext is re-chunked into
decrypt calls on the other, the decrypted concatenation equals the original
concatenation. -/
theorem c2_cipher_chunked_roundtrip (seedKey : List Nat) (em dm : CipherMode)
    (hmode : (em = .Server ∧ dm = .Client) ∨ (em = .Client ∧ dm = .Server))
    (chunksE chunksD : List (List Nat))
    (hpart : chunksD.flatten =
      ((XOrCipher.new em seedKey).encryptChunks chunksE).2.flatten) :
    ((XOrCipher.new dm seedKey).decryptChunks chunksD).2.flatten =
      chunksE.flatten := by
  have hkey : (XOrCipher.new dm seedKey).decrypt_key =
      (XOrCipher.new em seedKey).encrypt_key := by
    rcases hmode with ⟨he, hd⟩ | ⟨he, hd⟩ <;> subst he <;> subst hd <;> rfl
  have hlen : (XOrCipher.new em seedKey).encrypt_key.length = 8 := by
    cases em <;> simp [XOrCipher.new]
  have hpartE : chunksD.flatten =
      (xorEncryptBytes (XOrCipher.new em seedKey).encrypt_key 0
        chunksE.flatten).2.2 := by
    rw [hpart, (encryptChunks_flatten chunksE (XOrCipher.new em seedKey)).2]
    rfl
  have hmain := xorDecryptBytes_xorEncryptBytes chunksE.flatten
    (XOrCipher.new em seedKey).encrypt_key 0 hlen (by decide)
  calc ((XOrCipher.new dm seedKey).decryptChunks chunksD).2.flatten
      = ((XOrCipher.new dm seedKey).decrypt chunksD.flatten).2 :=
        (decryptChunks_flatten chunksD (XOrCipher.new dm seedKey)).2
    _ = (xorDecryptBytes (XOrCipher.new em seedKey).encrypt_key 0
          chunksD.flatten).2.2 := by
        simp only [XOrCipher.decrypt]
        rw [hkey]
        rcases hmode with ⟨he, hd⟩ | ⟨he, hd⟩ <;> subst hd <;> rfl
    _ = (xorDecryptBytes (XOrCipher.new em seedKey).encrypt_key 0
          (xorEncryptBytes (XOrCipher.new em seedKey).encrypt_key 0
            chunksE.flatten).2.2).2.2 := by rw [hpartE]
    _ = chunksE.flatten := by rw [hmain]

/-- C2 witness: seed `[1,2,3,4]`, plaintext `[5,6,7]` fed as chunks
`[5] / [6,7]` into the server cipher yields ciphertext `1,42,27`; decrypting
it on the client side re-chunked as `[1,42] / [27]` restores `5,6,7`. -/
theorem c2_cipher_chunked_roundtrip_witness :
    ((XOrCipher.new .Client [1, 2, 3, 4]).decryptChunks [[1, 42], [27]]).2.flatten =
      ([[5], [6, 7]] : List (List Nat)).flatten :=
  c2_cipher_chunked_roundtrip [1, 2, 3, 4] .Server .Client
    (Or.inl ⟨rfl, rfl⟩) [[5], [6, 7]] [[1, 42], [27]] (by decide)

/-- C3: the source cipher agrees with the spec's reference definition —
`k_a[i] = seed XOR (i<<3)` as the server's encrypt key and the client's
decrypt key, `k_b[i] = k_a[i] XOR 0x57` as the respective opposite lanes,
all offsets starting at 0; one encrypt step outputs `plain XOR k[off]`, then
stores the plaintext byte and XORs the offset with `plain & 7`; one decrypt
step recovers `plain = cipher XOR k[off]`, stores the recovered plaintext
byte (not the ciphertext byte) and XORs the offset with `plain & 7`. -/
theorem c3_key_derivation_and_stepping (key k : List Nat) (off v : Nat)
    (hoff : off < k.length) :
    (XOrCipher.new .Server key).encrypt_key = (List.range 8).map (spec_kA key) ∧
    (XOrCipher.new .Server key).decrypt_key = (List.range 8).map (spec_kB key) ∧
    (XOrCipher.new .Client key).encrypt_key = (List.range 8).map (spec_kB key) ∧
    (XOrCipher.new .Client key).decrypt_key = (List.range 8).map (spec_kA key) ∧
    (XOrCipher.new .Server key).encrypt_key_offset = 0 ∧
    (XOrCipher.new .Server key).decrypt_key_offset = 0 ∧
    (XOrCipher.new .Client key).encrypt_key_offset = 0 ∧
    (XOrCipher.new .Client key).decrypt_key_offset = 0 ∧
    xorEncryptByte k off v = specEncryptStep k off v ∧
    xorDecryptByte k off v = specDecryptStep k off v := by
  refine ⟨rfl, rfl, rfl, rfl, rfl, rfl, rfl, rfl, rfl, ?_⟩
  have hset : (k.set off (v ^^^ k.getD off 0)).getD off 0 =
      v ^^^ k.getD off 0 := by
    simp [List.getD, List.getElem?_set, hoff]
  simp only [xorDecryptByte, specDecryptStep]
  rw [hset]

/-- C3 witness: the decrypt step at a concrete in-bounds state. -/
theorem c3_key_derivation_and_stepping_witness :
    xorDecryptByte [0, 0, 0, 0, 0, 0, 0, 0] 0 5 =
      specDecryptStep [0, 0, 0, 0, 0, 0, 0, 0] 0 5 :=
  (c3_key_derivation_and_stepping [1, 2, 3, 4] [0, 0, 0, 0, 0, 0, 0, 0] 0 5
    (by decide)).2.2.2.2.2.2.2.2.2

/-- Decryption through the boxed cipher preserves the buffer length. -/
theorem CipherImpl.decrypt_length (ci : CipherImpl) (buf : List Nat) :
    (ci.decrypt buf).2.length = buf.length := by
  cases ci with
  | plain => rfl
  | xorC c =>
    simpa [CipherImpl.decrypt, XOrCipher.decrypt] using
      xorDecryptBytes_out_length buf c.decrypt_key c.decrypt_key_offset

/-- Encryption through the boxed cipher preserves the buffer length. -/
theorem CipherImpl.encrypt_length (ci : CipherImpl) (buf : List Nat) :
    (ci.encrypt buf).2.length = buf.length := by
  cases ci with
  | plain => rfl
  | xorC c =>
    simpa [CipherImpl.encrypt, XOrCipher.encrypt] using
      xorEncryptBytes_out_length buf c.encrypt_key c.encrypt_key_offset

/-- C4: with a full frame of declared length `L` (8 ≤ L ≤ cap, `L` bytes
buffered) whose payload decodes successfully, the framer consumes exactly
`L` bytes: the fill index drops by `L` and the bytes that followed the frame
are shifted to the front — independently of how many payload bytes the
registered decoder consumed (`consumed` is arbitrary; unread bytes only log
a warning). -/
theorem c4_framer_consumes_declared_length (c : Connection) (L pid : Nat)
    (pkt : PacketM) (consumed : Nat)
    (hL : L = readU32BE (c.recv_buffer.take c.recv_buffer_index))
    (hpid : pid = readU32BE ((c.recv_buffer.take c.recv_buffer_index).drop 4))
    (h8 : 8 ≤ L) (hcap : L ≤ 1024 * 1024 * 64)
    (hidx : L ≤ c.recv_buffer_index)
    (hlen : c.recv_buffer_index ≤ c.recv_buffer.length)
    (hdec : c.packet_registry.decode
      (c.crypt_context.decrypt ((c.recv_buffer.take L).drop 8)).2 pid =
      .ok (pkt, consumed)) :
    (c.try_parse_read_buffer).2 = .ready (.ok pkt) ∧
    (c.try_parse_read_buffer).1.recv_buffer_index = c.recv_buffer_index - L ∧
    (c.try_parse_read_buffer).1.recv_buffer.take (c.recv_buffer_index - L) =
      (c.recv_buffer.take c.recv_buffer_index).drop L := by
  have h1 : ¬ (c.recv_buffer_index < 8) := by omega
  have h2 : ¬ (L > 1024 * 1024 * 64) := by omega
  have h3 : ¬ (L < 8) := by omega
  have h4 : ¬ (c.recv_buffer_index < L) := by omega
  have hdlen : (c.crypt_context.decrypt ((c.recv_buffer.take L).drop 8)).2.length
      = L - 8 := by
    rw [CipherImpl.decrypt_length]
    simp only [List.length_drop, List.length_take]
    omega
  simp only [Connection.try_parse_read_buffer, ← hL, ← hpid,
    if_neg h1, if_neg h2, if_neg h3, if_neg h4, hdec]
  refine ⟨trivial, trivial, ?_⟩
  have hfront : (c.recv_buffer.take 8 ++
      (c.crypt_context.decrypt ((c.recv_buffer.take L).drop 8)).2).length = L := by
    simp only [List.length_append, List.length_take, hdlen]
    omega
  have hdropL := List.drop_left
    (c.recv_buffer.take 8 ++
      (c.crypt_context.decrypt ((c.recv_buffer.take L).drop 8)).2)
    (c.recv_buffer.drop L)
  rw [hfront] at hdropL
  rw [hdropL]
  have h5 : c.recv_buffer_index - L ≤ (c.recv_buffer.drop L).length := by
    simp only [List.length_drop]
    omega
  rw [List.take_append_of_le_length h5, List.drop_take]

/-- C4 witness: the frame in `c4Conn` (length 12, id 5, decoder consuming 0
of 4 payload bytes) is yielded, the index drops from 14 to 2, and the two
trailing bytes move to the front. -/
theorem c4_framer_consumes_declared_length_witness :
    (c4Conn.try_parse_read_buffer).2 = .ready (.ok (.known 5 [])) ∧
    (c4Conn.try_parse_read_buffer).1.recv_buffer_index = 2 ∧
    (c4Conn.try_parse_read_buffer).1.recv_buffer.take 2 = [7, 8] :=
  c4_framer_consumes_declared_length c4Conn 12 5 (.known 5 []) 0
    rfl rfl (by decide) (by decide) (by decide) (by decide) rfl

/-- `getD` into a prefix agrees with `getD` into the list. -/
theorem getD_take_lt (l : List Nat) (n i : Nat) (h : i < n) :
    (l.take n).getD i 0 = l.getD i 0 := by
  simp [List.getD, List.getElem?_take, h]

/-- Reading the leading big-endian `u32` only looks at the first 4 bytes. -/
theorem readU32BE_take (buf : List Nat) (n : Nat) (h : 4 ≤ n) :
    readU32BE (buf.take n) = readU32BE buf := by
  unfold readU32BE
  rw [getD_take_lt buf n 0 (by omega), getD_take_lt buf n 1 (by omega),
    getD_take_lt buf n 2 (by omega), getD_take_lt buf n 3 (by omega)]

/-- Growing the receive buffer does not move the fill index. -/
theorem grow_recv_index (c : Connection) :
    c.grow_recv.recv_buffer_index = c.recv_buffer_index := by
  unfold Connection.grow_recv
  split <;> rfl

/-- Growing the receive buffer does not change the filled prefix. -/
theorem grow_recv_take (c : Connection)
    (h : c.recv_buffer_index ≤ c.recv_buffer.length) :
    c.grow_recv.recv_buffer.take c.recv_buffer_index =
      c.recv_buffer.take c.recv_buffer_index := by
  unfold Connection.grow_recv
  split
  · exact List.take_append_of_le_length h
  · rfl

/-- A header whose declared length is out of bounds makes
`try_parse_read_buffer` return the matching framing error and leaves the
connection state untouched. -/
theorem try_parse_header_error (c : Connection) (L : Nat)
    (hidx : 8 ≤ c.recv_buffer_index)
    (hL : L = readU32BE (c.recv_buffer.take c.recv_buffer_index))
    (hrange : L < 8 ∨ L > 1024 * 1024 * 64) :
    c.try_parse_read_buffer =
      (c, .ready (.error
        (if L < 8 then .PacketTooSmall L else .PacketTooLarge L))) := by
  have h1 : ¬ (c.recv_buffer_index < 8) := by omega
  rcases hrange with hs | hl
  · have h2 : ¬ (L > 1024 * 1024 * 64) := by omega
    simp only [Connection.try_parse_read_buffer, ← hL, if_neg h1, if_neg h2,
      if_pos hs]
  · have h2 : ¬ (L < 8) := by omega
    simp only [Connection.try_parse_read_buffer, ← hL, if_neg h1, if_pos hl,
      if_neg h2]

/-- Polling a disconnected connection is terminal and has no effect. -/
theorem poll_next_disconnected (c : Connection) (sock : SocketM)
    (h : c.disconnected = true) : c.poll_next sock = (c, sock, .terminated) := by
  simp [Connection.poll_next, h]

/-- When a frame (or framing error) is already available, the incoming loop
returns it without consuming socket events. -/
theorem poll_incoming_loop_ready (c c1 : Connection)
    (r : Except ProtocolError PacketM) (script : List SockRecv)
    (h : c.try_parse_read_buffer = (c1, .ready r)) :
    Connection.poll_incoming_loop c script = (c1, script, .ready r) := by
  cases script <;> simp only [Connection.poll_incoming_loop, h]

/-- With an empty send buffer the outgoing poll is a no-op returning
pending. -/
theorem poll_outgoing_empty (c : Connection) (script : List SockSend)
    (h : c.send_buffer = []) :
    Connection.poll_outgoing c script = (c, script, none) := by
  cases script with
  | nil => rfl
  | cons ev rest => simp only [Connection.poll_outgoing, h, List.isEmpty_nil, if_pos]

/-- C5: a buffered header (≥ 8 bytes available) whose first 4 bytes decode
to a length below 8 yields `PacketTooSmall(length)`, above the 64 MiB cap
yields `PacketTooLarge(length)`; the poll that surfaces the error marks the
connection disconnected, and every subsequent poll is terminal, changing
nothing and yielding no further items. -/
theorem c5_header_bounds_disconnect (c : Connection) (sock : SocketM) (L : Nat)
    (hdisc : c.disconnected = false)
    (hsend : c.send_buffer = [])
    (hidx : 8 ≤ c.recv_buffer_index)
    (hlen : c.recv_buffer_index ≤ c.recv_buffer.length)
    (hL : L = readU32BE c.recv_buffer)
    (hrange : L < 8 ∨ L > 1024 * 1024 * 64) :
    (c.poll_next sock).2.2 =
      .item (.error (if L < 8 then .PacketTooSmall L else .PacketTooLarge L)) ∧
    (c.poll_next sock).1.disconnected = true ∧
    (∀ sock', (c.poll_next sock).1.poll_next sock' =
      ((c.poll_next sock).1, sock', .terminated)) := by
  have hL' : L = readU32BE
      (c.grow_recv.recv_buffer.take c.grow_recv.recv_buffer_index) := by
    rw [grow_recv_index, grow_recv_take c hlen,
      readU32BE_take c.recv_buffer c.recv_buffer_index (by omega)]
    exact hL
  have hidxg : 8 ≤ c.grow_recv.recv_buffer_index := by
    rw [grow_recv_index]; exact hidx
  have htp := try_parse_header_error c.grow_recv L hidxg hL' hrange
  have hloop := poll_incoming_loop_ready c.grow_recv c.grow_recv _ sock.recv_script htp
  have hout := poll_outgoing_empty c sock.send_script hsend
  have hio : c.poll_io sock = (c.grow_recv, sock, .ready (.error
      (if L < 8 then .PacketTooSmall L else .PacketTooLarge L))) := by
    unfold Connection.poll_io
    rw [hout]
    simp only [Connection.poll_incoming, hloop]
  have hpn : c.poll_next sock =
      ({ c.grow_recv with disconnected := true }, sock, .item (.error
        (if L < 8 then .PacketTooSmall L else .PacketTooLarge L))) := by
    unfold Connection.poll_next
    rw [hdisc, hio]
    rfl
  refine ⟨by rw [hpn], by rw [hpn], fun sock' => by
    rw [hpn]
    exact poll_next_disconnected _ _ rfl⟩

/-- C5 witness: declared length 4 gives `PacketTooSmall 4`; declared length
`0xFF000000` gives `PacketTooLarge`; both disconnect and the next polls are
terminal. -/
theorem c5_header_bounds_disconnect_witness :
    (c5ConnSmall.poll_next sockEmpty).2.2 =
      .item (.error (.PacketTooSmall 4)) ∧
    (c5ConnSmall.poll_next sockEmpty).1.disconnected = true ∧
    ((c5ConnSmall.poll_next sockEmpty).1.poll_next sockEmpty).2.2 = .terminated ∧
    (c5ConnLarge.poll_next sockEmpty).2.2 =
      .item (.error (.PacketTooLarge 4278190080)) ∧
    (c5ConnLarge.poll_next sockEmpty).1.disconnected = true ∧
    ((c5ConnLarge.poll_next sockEmpty).1.poll_next sockEmpty).2.2 = .terminated := by
  have hs := c5_header_bounds_disconnect c5ConnSmall sockEmpty 4
    rfl rfl (by decide) (by decide) rfl (Or.inl (by decide))
  have hl := c5_header_bounds_disconnect c5ConnLarge sockEmpty 4278190080
    rfl rfl (by decide) (by decide) rfl (Or.inr (by decide))
  exact ⟨hs.1, hs.2.1, by rw [hs.2.2 sockEmpty], hl.1, hl.2.1,
    by rw [hl.2.2 sockEmpty]⟩

/-- C6: a buffered full frame whose id is not in the catalog fails with
`PacketUnknownId` carrying that id (as `i32`) when allow-unknown mode is
off, and decodes to an opaque record preserving exactly the decrypted
payload bytes when allow-unknown mode is on. -/
theorem c6_unknown_id_modes (c : Connection) (L pid : Nat)
    (hL : L = readU32BE (c.recv_buffer.take c.recv_buffer_index))
    (hpid : pid = readU32BE ((c.recv_buffer.take c.recv_buffer_index).drop 4))
    (h8 : 8 ≤ L) (hcap : L ≤ 1024 * 1024 * 64)
    (hidx : L ≤ c.recv_buffer_index)
    (hunk : alLookup pid c.packet_registry.packets = none) :
    (c.packet_registry.decode_as_unknown = false →
      (c.try_parse_read_buffer).2 =
        .ready (.error (.PacketUnknownId (u32AsI32 pid)))) ∧
    (c.packet_registry.decode_as_unknown = true →
      (c.try_parse_read_buffer).2 =
        .ready (.ok (.unknownPkt ⟨pid, .Unknown,
          (c.crypt_context.decrypt ((c.recv_buffer.take L).drop 8)).2⟩))) := by
  have h1 : ¬ (c.recv_buffer_index < 8) := by omega
  have h2 : ¬ (L > 1024 * 1024 * 64) := by omega
  have h3 : ¬ (L < 8) := by omega
  have h4 : ¬ (c.recv_buffer_index < L) := by omega
  constructor
  · intro hmode
    have hdec : c.packet_registry.decode
        (c.crypt_context.decrypt ((c.recv_buffer.take L).drop 8)).2 pid =
        .error (.PacketUnknownId (u32AsI32 pid)) := by
      simp [PacketRegistry.decode, hunk, hmode]
    simp only [Connection.try_parse_read_buffer, ← hL, ← hpid,
      if_neg h1, if_neg h2, if_neg h3, if_neg h4, hdec]
  · intro hmode
    have hdec : c.packet_registry.decode
        (c.crypt_context.decrypt ((c.recv_buffer.take L).drop 8)).2 pid =
        .ok (.unknownPkt ⟨pid, .Unknown,
          (c.crypt_context.decrypt ((c.recv_buffer.take L).drop 8)).2⟩,
          (c.crypt_context.decrypt ((c.recv_buffer.take L).drop 8)).2.length) := by
      simp [PacketRegistry.decode, hunk, hmode]
    simp only [Connection.try_parse_read_buffer, ← hL, ← hpid,
      if_neg h1, if_neg h2, if_neg h3, if_neg h4, hdec]

/-- C6 witness: the frame `length=12, id=999, payload=[0xDE,0xAD,0xBE,0xEF]`
gives `PacketUnknownId(999)` in strict mode and an opaque record with those
4 payload bytes in permissive mode. -/
theorem c6_unknown_id_modes_witness :
    (c6ConnStrict.try_parse_read_buffer).2 =
      .ready (.error (.PacketUnknownId 999)) ∧
    (c6ConnPermissive.try_parse_read_buffer).2 =
      .ready (.ok (.unknownPkt ⟨999, .Unknown, [222, 173, 190, 239]⟩)) :=
  ⟨(c6_unknown_id_modes c6ConnStrict 12 999 rfl rfl (by decide) (by decide)
      (by decide) rfl).1 rfl,
   (c6_unknown_id_modes c6ConnPermissive 12 999 rfl rfl (by decide) (by decide)
      (by decide) rfl).2 rfl⟩

/-- C10: on the synthesized unknown-packet record, `direction()` panics
unconditionally (`todo!()` stub), while `model_id()` totally returns
`0xFFFFFFFF` (`-1i32` reinterpreted) and `packet_id()` totally returns the
stored id — which, for the record synthesized by the registry in permissive
mode, is the id taken from the frame header, with the payload preserved. -/
theorem c10_unknown_record_accessors (u : UnknownPacketM)
    (reg : PacketRegistry) (reader : List Nat) (pid : Nat)
    (hunk : alLookup pid reg.packets = none)
    (hallow : reg.decode_as_unknown = true) :
    u.direction = .panics ∧
    u.model_id = .returns 4294967295 ∧
    u.packet_id = .returns u.packet_id_value ∧
    reg.decode reader pid =
      .ok (.unknownPkt ⟨pid, .Unknown, reader⟩, reader.length) := by
  refine ⟨rfl, rfl, rfl, ?_⟩
  simp [PacketRegistry.decode, hunk, hallow]

/-- C10 witness: the accessors on the record synthesized from the
`id=999` frame. -/
theorem c10_unknown_record_accessors_witness :
    (⟨999, .Unknown, [222, 173, 190, 239]⟩ : UnknownPacketM).direction = .panics ∧
    (⟨999, .Unknown, [222, 173, 190, 239]⟩ : UnknownPacketM).model_id =
      .returns 4294967295 ∧
    (⟨999, .Unknown, [222, 173, 190, 239]⟩ : UnknownPacketM).packet_id =
      .returns 999 ∧
    c6ConnPermissive.packet_registry.decode [222, 173, 190, 239] 999 =
      .ok (.unknownPkt ⟨999, .Unknown, [222, 173, 190, 239]⟩, 4) :=
  c10_unknown_record_accessors ⟨999, .Unknown, [222, 173, 190, 239]⟩
    c6ConnPermissive.packet_registry [222, 173, 190, 239] 999 rfl rfl

/-- C8 counterexample: the task matches packet 7 (first poll), the value is
delivered into the one-shot channel at the start of the second poll, and
only then does the session observe the connection close — yet the handle
resolves with "client disconnected", with the delivered `Ok 99` still
sitting unread in the channel.  This refutes "resolves with `Ok(result)` if
the task produces a value (delivered through its one-shot channel) before
the session reaches the disconnected state". -/
theorem c8_task_result_dropped_counterexample :
    (pollTaskHandle c8Matcher c8St0).2 = .pending ∧
    (pollTaskHandle c8Matcher (pollTaskHandle c8Matcher c8St0).1).2 =
      .ready (.error "client disconnected") ∧
    (pollTaskHandle c8Matcher (pollTaskHandle c8Matcher c8St0).1).1.channel =
      some (.ok 99) :=
  ⟨rfl, rfl, rfl⟩

/-- C8 (amended): `TaskHandle::poll` polls the session before the result
channel, so a poll resolves with `Ok(v)` iff the session poll comes back
pending and the channel already holds `Ok(v)` at that point; whenever the
session's poll completes (disconnect or clean connection close), the handle
resolves with the "client disconnected" error — even if a value was
delivered earlier — and never yields a result after the session has
completed. -/
theorem c8_task_handle_poll_order {P R : Type} (matcher : P → Option R)
    (st : SessionSim P R) :
    (∀ v : R, (pollTaskHandle matcher st).2 = .ready (.ok v) ↔
      ((sessionPoll matcher st).2 = .pending ∧
       (sessionPoll matcher st).1.channel = some (.ok v))) ∧
    ((sessionPoll matcher st).2 = .ready () →
      (pollTaskHandle matcher st).2 =
        .ready (.error "client disconnected")) := by
  constructor
  · intro v
    cases hp : (sessionPoll matcher st).2 with
    | ready u => simp [pollTaskHandle, hp]
    | pending =>
      cases hc : (sessionPoll matcher st).1.channel with
      | none => simp [pollTaskHandle, hp, hc]
      | some r =>
        cases r with
        | ok w => simp [pollTaskHandle, hp, hc]
        | error s => simp [pollTaskHandle, hp, hc]
  · intro h
    simp [pollTaskHandle, h]

/-- C8 witness: polling the handle of an already-disconnected session
resolves with the disconnect error. -/
theorem c8_task_handle_poll_order_witness :
    (pollTaskHandle c8Matcher
      (⟨true, false, none, none, []⟩ : SessionSim Nat Nat)).2 =
      .ready (.error "client disconnected") :=
  (c8_task_handle_poll_order c8Matcher ⟨true, false, none, none, []⟩).2 rfl

/-- C9 counterexample: a packet whose encoded frame is 64 MiB + 1 bytes is
accepted by `send_packet` (which contains no size check), refuting the
claim that it returns `PacketTooLarge` instead of enqueuing. -/
theorem c9_send_oversized_accepted_counterexample :
    8 + c9BigPacket.body.length > 1024 * 1024 * 64 ∧
    (c9Conn.send_packet c9BigPacket).isOk = true := by
  have h : c9BigPacket.body.length = 67108857 := List.length_replicate _ _
  constructor
  · rw [h]; omega
  · rfl

/-- C9 (amended): `send_packet` performs no size check at all — it succeeds
for every packet and appends the whole `8 + body` frame to the send buffer
regardless of the 64 MiB cap (which is enforced only by the receiving
framer, cf. the header-bounds theorem). -/
theorem c9_send_packet_no_size_check (c : Connection) (p : OutPacketM) :
    (c.send_packet p).isOk = true ∧
    (∀ c', c.send_packet p = .ok c' →
      c'.send_buffer.length = c.send_buffer.length + (8 + p.body.length)) := by
  constructor
  · rfl
  · intro c' h
    unfold Connection.send_packet at h
    injection h with h
    subst h
    simp [be32, List.length_append, CipherImpl.encrypt_length]
    omega

/-- C9 witness: the oversized packet is enqueued whole: the fresh
connection's send buffer afterwards holds exactly 67 108 865 bytes. -/
theorem c9_send_packet_no_size_check_witness :
    (c9Conn.send_packet c9BigPacket).isOk = true ∧
    ∀ c', c9Conn.send_packet c9BigPacket = .ok c' →
      c'.send_buffer.length = 0 + (8 + 67108857) := by
  have h := c9_send_packet_no_size_check c9Conn c9BigPacket
  have hbody : c9BigPacket.body.length = 67108857 := List.length_replicate _ _
  refine ⟨h.1, fun c' hc => ?_⟩
  have hb := h.2 c' hc
  rw [hb, hbody]
  simp [c9Conn]

theorem alLookup_alInsert_self {α : Type _} (k : Nat) (v : α) (l : List (Nat × α)) :
    alLookup k (alInsert k v l) = some v := by
  induction l with
  | nil => simp [alInsert, alLookup]
  | cons kv rest ih =>
    by_cases h1 : k < kv.1
    · simp [alInsert, h1, alLookup]
    · by_cases h2 : k = kv.1
      · simp [alInsert, h1, h2, alLookup]
      · simp [alInsert, h1, h2, alLookup, ih]

theorem alLookup_alInsert_ne {α : Type _} (k k' : Nat) (v : α) (l : List (Nat × α))
    (h : k ≠ k') :
    alLookup k (alInsert k' v l) = alLookup k l := by
  induction l with
  | nil => simp [alInsert, alLookup, h]
  | cons kv rest ih =>
    by_cases h1 : k' < kv.1
    · simp [alInsert, h1, alLookup, h]
    · by_cases h2 : k' = kv.1
      · subst h2
        simp [alInsert, h1, alLookup, h]
      · by_cases h3 : k = kv.1
        · simp [alInsert, h1, h2, alLookup, h3]
        · simp [alInsert, h1, h2, alLookup, h3, ih]

theorem alLookup_alRemove_ne {α : Type _} (k k' : Nat) (l : List (Nat × α))
    (h : k ≠ k') :
    alLookup k (alRemove k' l) = alLookup k l := by
  induction l with
  | nil => simp [alRemove, alLookup]
  | cons kv rest ih =>
    by_cases h2 : k' = kv.1
    · subst h2
      simp [alRemove, alLookup, h]
    · by_cases h3 : k = kv.1
      · simp [alRemove, h2, alLookup, h3]
      · simp [alRemove, h2, alLookup, h3, ih]

theorem alLookup_eq_none_iff {α : Type _} (k : Nat) (l : List (Nat × α)) :
    alLookup k l = none ↔ k ∉ l.map Prod.fst := by
  induction l with
  | nil => simp [alLookup]
  | cons kv rest ih =>
    by_cases h : k = kv.1
    · simp [alLookup, h]
    · simp [alLookup, h, ih]

theorem mem_keys_of_alLookup {α : Type _} {k : Nat} {v : α} {l : List (Nat × α)}
    (h : alLookup k l = some v) : k ∈ l.map Prod.fst := by
  by_contra hc
  rw [← alLookup_eq_none_iff] at hc
  rw [h] at hc
  cases hc

theorem alLookup_alRemove_self {α : Type _} (k : Nat) (l : List (Nat × α))
    (hnd : (l.map Prod.fst).Nodup) :
    alLookup k (alRemove k l) = none := by
  induction l with
  | nil => simp [alRemove, alLookup]
  | cons kv rest ih =>
    simp only [List.map_cons, List.nodup_cons] at hnd
    by_cases h : k = kv.1
    · subst h
      simp only [alRemove, if_pos rfl]
      exact (alLookup_eq_none_iff _ _).2 hnd.1
    · simp [alRemove, h, alLookup, ih hnd.2]

theorem mem_keys_alInsert {α : Type _} (k k' : Nat) (v : α) (l : List (Nat × α)) :
    k' ∈ (alInsert k v l).map Prod.fst ↔ k' = k ∨ k' ∈ l.map Prod.fst := by
  induction l with
  | nil => simp [alInsert]
  | cons kv rest ih =>
    by_cases h1 : k < kv.1
    · simp [alInsert, h1]
    · by_cases h2 : k = kv.1
      · subst h2
        simp [alInsert, h1]
      · simp [alInsert, h1, h2, ih]
        tauto

theorem alInsert_keys_sorted {α : Type _} (k : Nat) (v : α) (l : List (Nat × α))
    (hs : ((l.map Prod.fst).Pairwise (· < ·))) :
    (((alInsert k v l).map Prod.fst).Pairwise (· < ·)) := by
  induction l with
  | nil => simp [alInsert]
  | cons kv rest ih =>
    simp only [List.map_cons, List.pairwise_cons] at hs
    by_cases h1 : k < kv.1
    · simp only [alInsert, if_pos h1, List.map_cons]
      refine List.Pairwise.cons ?_ (List.Pairwise.cons hs.1 hs.2)
      intro b hb
      rcases List.mem_cons.1 hb with hb | hb
      · omega
      · have := hs.1 b hb
        omega
    · by_cases h2 : k = kv.1
      · simp only [alInsert, if_neg h1, if_pos h2, List.map_cons]
        refine List.Pairwise.cons ?_ hs.2
        intro b hb
        have := hs.1 b hb
        omega
      · simp only [alInsert, if_neg h1, if_neg h2, List.map_cons]
        refine List.Pairwise.cons ?_ (ih hs.2)
        intro b hb
        rcases (mem_keys_alInsert k b v rest).1 hb with hb | hb
        · omega
        · exact hs.1 b hb

theorem alRemove_sublist {α : Type _} (k : Nat) (l : List (Nat × α)) :
    (alRemove k l).Sublist l := by
  induction l with
  | nil => simp [alRemove]
  | cons kv rest ih =>
    by_cases h : k = kv.1
    · simp only [alRemove, if_pos h]
      exact (List.sublist_cons_self kv rest)
    · simp only [alRemove, if_neg h]
      exact ih.cons₂ kv

theorem alRemove_keys_sorted {α : Type _} (k : Nat) (l : List (Nat × α))
    (hs : ((l.map Prod.fst).Pairwise (· < ·))) :
    (((alRemove k l).map Prod.fst).Pairwise (· < ·)) :=
  List.Pairwise.sublist (List.Sublist.map Prod.fst (alRemove_sublist k l)) hs

theorem nodup_of_keys_sorted {α : Type _} {l : List (Nat × α)}
    (hs : ((l.map Prod.fst).Pairwise (· < ·))) :
    (l.map Prod.fst).Nodup :=
  hs.imp (fun h => Nat.ne_of_lt h)

theorem mem_alInsert {α : Type _} {q : Nat × α} {k : Nat} {v : α}
    {l : List (Nat × α)} (h : q ∈ alInsert k v l) : q = (k, v) ∨ q ∈ l := by
  induction l with
  | nil => simpa [alInsert] using h
  | cons kv rest ih =>
    by_cases h1 : k < kv.1
    · simp only [alInsert, if_pos h1, List.mem_cons] at h
      rcases h with h | h | h
      · exact Or.inl h
      · exact Or.inr (List.mem_cons.2 (Or.inl h))
      · exact Or.inr (List.mem_cons.2 (Or.inr h))
    · by_cases h2 : k = kv.1
      · simp only [alInsert, if_neg h1, if_pos h2, List.mem_cons] at h
        rcases h with h | h
        · exact Or.inl h
        · exact Or.inr (List.mem_cons.2 (Or.inr h))
      · simp only [alInsert, if_neg h1, if_neg h2, List.mem_cons] at h
        rcases h with h | h
        · exact Or.inr (List.mem_cons.2 (Or.inl h))
        · rcases ih h with hq | hq
          · exact Or.inl hq
          · exact Or.inr (List.mem_cons.2 (Or.inr hq))

theorem mem_alRemove {α : Type _} {q : Nat × α} {k : Nat} {l : List (Nat × α)}
    (h : q ∈ alRemove k l) : q ∈ l :=
  (alRemove_sublist k l).mem h



theorem remOk_le {r B : Nat} (h : (RegAction.removeH r).remOk B = true) :
    r ≤ B := by
  by_cases hb : r ≤ B
  · exact hb
  · simp [RegAction.remOk, hb] at h

theorem wellBehaved_ok {h : HandlerB} (hw : h.wellBehaved = true) :
    h.ok = true := by
  cases h with
  | mk acts o =>
    simp only [HandlerB.wellBehaved, Bool.and_eq_true] at hw
    simpa [HandlerB.ok] using hw.1

theorem wellBehaved_reg {h h' : HandlerB} (hw : h.wellBehaved = true)
    (ha : RegAction.registerH h' ∈ h.actions) : h'.ok = true := by
  cases h with
  | mk acts o =>
    simp only [HandlerB.wellBehaved, Bool.and_eq_true, List.all_eq_true] at hw
    have := hw.2 _ (by simpa [HandlerB.actions] using ha)
    simpa using this

theorem runRegAction_handler (st : PacketHandlerRegistry) (a : RegAction) :
    (runRegAction st a).handler = st.handler := by
  cases a <;> rfl

theorem foldActions_handler (acts : List RegAction) :
    ∀ st, (acts.foldl runRegAction st).handler = st.handler := by
  induction acts with
  | nil => intro st; rfl
  | cons a rest ih =>
    intro st
    rw [List.foldl_cons, ih, runRegAction_handler]

theorem runRegAction_index (st : PacketHandlerRegistry) (a : RegAction) :
    st.handler_index ≤ (runRegAction st a).handler_index := by
  cases a with
  | registerH h =>
    simp [runRegAction, PacketHandlerRegistry.register_handler_during]
  | removeH id => simp [runRegAction, PacketHandlerRegistry.remove_handler_during]

theorem foldActions_index (acts : List RegAction) :
    ∀ st, st.handler_index ≤ (acts.foldl runRegAction st).handler_index := by
  induction acts with
  | nil => intro st; exact Nat.le_refl _
  | cons a rest ih =>
    intro st
    exact Nat.le_trans (runRegAction_index st a) (ih (runRegAction st a))

theorem dispatchGo_handler (l : List (Nat × HandlerB)) :
    ∀ st, (dispatchGo st l).1.handler = st.handler := by
  induction l with
  | nil => intro st; rfl
  | cons p rest ih =>
    intro st
    simp only [dispatchGo, runObserve]
    split
    · simp only [ih, foldActions_handler]
    · simp only [foldActions_handler]

theorem dispatchGo_index (l : List (Nat × HandlerB)) :
    ∀ st, st.handler_index ≤ (dispatchGo st l).1.handler_index := by
  induction l with
  | nil => intro st; exact Nat.le_refl _
  | cons p rest ih =>
    intro st
    simp only [dispatchGo, runObserve]
    split
    · exact Nat.le_trans (foldActions_index p.2.actions st) (ih _)
    · exact foldActions_index p.2.actions st

theorem dispatchGo_invoked (l : List (Nat × HandlerB)) :
    ∀ st, (∀ p ∈ l, p.2.ok = true) →
      (dispatchGo st l).2.1 = l.map Prod.fst ∧ (dispatchGo st l).2.2 = true := by
  induction l with
  | nil => intro st _; exact ⟨rfl, rfl⟩
  | cons p rest ih =>
    intro st hok
    have hpok : p.2.ok = true := hok p (List.mem_cons_self p rest)
    have htail := ih (p.2.actions.foldl runRegAction st)
      (fun q hq => hok q (List.mem_cons_of_mem p hq))
    simp only [dispatchGo, runObserve, hpok, if_pos, List.map_cons]
    exact ⟨by rw [htail.1], htail.2⟩



theorem pending_preserved_action (st : PacketHandlerRegistry) (a : RegAction)
    (k : Nat) (x : Option HandlerB) (B : Nat)
    (hk : alLookup k st.pending_handler_updates = some x)
    (hkI : k ≤ st.handler_index)
    (ha : a.remOk B = true)
    (hcond : B < k ∨ x = none) :
    alLookup k (runRegAction st a).pending_handler_updates = some x ∧
    k ≤ (runRegAction st a).handler_index := by
  cases a with
  | registerH h =>
    simp only [runRegAction, PacketHandlerRegistry.register_handler_during]
    constructor
    · rw [alLookup_alInsert_ne _ _ _ _ (by omega)]
      exact hk
    · omega
  | removeH id =>
    have hid : id ≤ B := remOk_le ha
    simp only [runRegAction, PacketHandlerRegistry.remove_handler_during]
    refine ⟨?_, hkI⟩
    by_cases he : k = id
    · subst he
      rcases hcond with hc | hc
      · omega
      · subst hc
        exact alLookup_alInsert_self k none st.pending_handler_updates
    · rw [alLookup_alInsert_ne _ _ _ _ he]
      exact hk

theorem pending_preserved_actions (acts : List RegAction) (k : Nat)
    (x : Option HandlerB) (B : Nat) :
    ∀ st, alLookup k st.pending_handler_updates = some x →
      k ≤ st.handler_index →
      (∀ a ∈ acts, a.remOk B = true) →
      (B < k ∨ x = none) →
      alLookup k (acts.foldl runRegAction st).pending_handler_updates = some x ∧
      k ≤ (acts.foldl runRegAction st).handler_index := by
  induction acts with
  | nil => intro st hk hkI _ _; exact ⟨hk, hkI⟩
  | cons a rest ih =>
    intro st hk hkI hrem hcond
    have hstep := pending_preserved_action st a k x B hk hkI
      (hrem a (List.mem_cons_self a rest)) hcond
    exact ih (runRegAction st a) hstep.1 hstep.2
      (fun b hb => hrem b (List.mem_cons_of_mem a hb)) hcond

theorem pending_preserved_dispatch (l : List (Nat × HandlerB)) (k : Nat)
    (x : Option HandlerB) (B : Nat) :
    ∀ st, alLookup k st.pending_handler_updates = some x →
      k ≤ st.handler_index →
      (∀ p ∈ l, ∀ a ∈ p.2.actions, a.remOk B = true) →
      (B < k ∨ x = none) →
      alLookup k (dispatchGo st l).1.pending_handler_updates = some x ∧
      k ≤ (dispatchGo st l).1.handler_index := by
  induction l with
  | nil => intro st hk hkI _ _; exact ⟨hk, hkI⟩
  | cons p rest ih =>
    intro st hk hkI hrem hcond
    have hstep := pending_preserved_actions p.2.actions k x B st hk hkI
      (fun a ha => hrem p (List.mem_cons_self p rest) a ha) hcond
    simp only [dispatchGo, runObserve]
    split
    · exact ih (p.2.actions.foldl runRegAction st) hstep.1 hstep.2
        (fun q hq a ha => hrem q (List.mem_cons_of_mem p hq) a ha) hcond
    · exact hstep

theorem register_creates_actions (acts : List RegAction) (h' : HandlerB)
    (B : Nat) :
    ∀ st, RegAction.registerH h' ∈ acts →
      (∀ a ∈ acts, a.remOk B = true) →
      B ≤ st.handler_index →
      ∃ id', B < id' ∧ id' ≤ (acts.foldl runRegAction st).handler_index ∧
        alLookup id' (acts.foldl runRegAction st).pending_handler_updates =
          some (some h') := by
  induction acts with
  | nil =>
    intro st hmem
    cases hmem
  | cons a rest ih =>
    intro st hmem hrem hB
    rcases List.mem_cons.1 hmem with heq | hmem'
    · subst heq
      have hk : alLookup (1 + st.handler_index)
          (runRegAction st (RegAction.registerH h')).pending_handler_updates =
          some (some h') := by
        simp only [runRegAction, PacketHandlerRegistry.register_handler_during]
        exact alLookup_alInsert_self _ _ _
      have hkI : 1 + st.handler_index ≤
          (runRegAction st (RegAction.registerH h')).handler_index := by
        simp only [runRegAction, PacketHandlerRegistry.register_handler_during]
        omega
      have hpres := pending_preserved_actions rest (1 + st.handler_index)
        (some h') B (runRegAction st (RegAction.registerH h')) hk hkI
        (fun b hb => hrem b (List.mem_cons_of_mem _ hb)) (Or.inl (by omega))
      exact ⟨1 + st.handler_index, by omega, hpres.2, hpres.1⟩
    · exact ih (runRegAction st a) hmem'
        (fun b hb => hrem b (List.mem_cons_of_mem a hb))
        (Nat.le_trans hB (runRegAction_index st a))

theorem remove_creates_actions (acts : List RegAction) (r B : Nat) :
    ∀ st, RegAction.removeH r ∈ acts →
      (∀ a ∈ acts, a.remOk B = true) →
      B ≤ st.handler_index →
      alLookup r (acts.foldl runRegAction st).pending_handler_updates =
        some none := by
  induction acts with
  | nil =>
    intro st hmem
    cases hmem
  | cons a rest ih =>
    intro st hmem hrem hB
    rcases List.mem_cons.1 hmem with heq | hmem'
    · subst heq
      have hr : r ≤ B := remOk_le (hrem _ (List.mem_cons_self _ rest))
      have hk : alLookup r
          (runRegAction st (RegAction.removeH r)).pending_handler_updates =
          some none := by
        simp only [runRegAction, PacketHandlerRegistry.remove_handler_during]
        exact alLookup_alInsert_self _ _ _
      have hkI : r ≤ (runRegAction st (RegAction.removeH r)).handler_index := by
        simp only [runRegAction, PacketHandlerRegistry.remove_handler_during]
        omega
      exact (pending_preserved_actions rest r none B
        (runRegAction st (RegAction.removeH r)) hk hkI
        (fun b hb => hrem b (List.mem_cons_of_mem _ hb)) (Or.inr rfl)).1
    · exact ih (runRegAction st a) hmem'
        (fun b hb => hrem b (List.mem_cons_of_mem a hb))
        (Nat.le_trans hB (runRegAction_index st a))



theorem register_creates_dispatch (l : List (Nat × HandlerB)) (h' : HandlerB)
    (i₀ : Nat) (h₀ : HandlerB) (B : Nat) :
    ∀ st, (i₀, h₀) ∈ l → RegAction.registerH h' ∈ h₀.actions →
      (∀ p ∈ l, p.2.ok = true) →
      (∀ p ∈ l, ∀ a ∈ p.2.actions, a.remOk B = true) →
      B ≤ st.handler_index →
      ∃ id', B < id' ∧ id' ≤ (dispatchGo st l).1.handler_index ∧
        alLookup id' (dispatchGo st l).1.pending_handler_updates =
          some (some h') := by
  induction l with
  | nil =>
    intro st hmem
    cases hmem
  | cons p rest ih =>
    intro st hmem hact hok hrem hB
    have hpok : p.2.ok = true := hok p (List.mem_cons_self p rest)
    simp only [dispatchGo, runObserve, hpok, if_pos]
    rcases List.mem_cons.1 hmem with heq | hmem'
    · have hact' : RegAction.registerH h' ∈ p.2.actions := by
        rw [← heq]
        exact hact
      obtain ⟨id', hB', hle, hlook⟩ := register_creates_actions p.2.actions h' B st
        hact' (fun a ha => hrem p (List.mem_cons_self p rest) a ha) hB
      have hpres := pending_preserved_dispatch rest id' (some h') B
        (p.2.actions.foldl runRegAction st) hlook hle
        (fun q hq a ha => hrem q (List.mem_cons_of_mem p hq) a ha)
        (Or.inl hB')
      exact ⟨id', hB', hpres.2, hpres.1⟩
    · exact ih (p.2.actions.foldl runRegAction st) hmem' hact
        (fun q hq => hok q (List.mem_cons_of_mem p hq))
        (fun q hq a ha => hrem q (List.mem_cons_of_mem p hq) a ha)
        (Nat.le_trans hB (foldActions_index p.2.actions st))

theorem remove_creates_dispatch (l : List (Nat × HandlerB)) (r : Nat)
    (i₁ : Nat) (h₁ : HandlerB) (B : Nat) :
    ∀ st, (i₁, h₁) ∈ l → RegAction.removeH r ∈ h₁.actions →
      (∀ p ∈ l, p.2.ok = true) →
      (∀ p ∈ l, ∀ a ∈ p.2.actions, a.remOk B = true) →
      B ≤ st.handler_index →
      alLookup r (dispatchGo st l).1.pending_handler_updates = some none := by
  induction l with
  | nil =>
    intro st hmem
    cases hmem
  | cons p rest ih =>
    intro st hmem hact hok hrem hB
    have hpok : p.2.ok = true := hok p (List.mem_cons_self p rest)
    simp only [dispatchGo, runObserve, hpok, if_pos]
    rcases List.mem_cons.1 hmem with heq | hmem'
    · have hact' : RegAction.removeH r ∈ p.2.actions := by
        rw [← heq]
        exact hact
      have hr : r ≤ B := remOk_le
        (hrem p (List.mem_cons_self p rest) _ hact')
      have hlook := remove_creates_actions p.2.actions r B st hact'
        (fun a ha => hrem p (List.mem_cons_self p rest) a ha) hB
      exact (pending_preserved_dispatch rest r none B
        (p.2.actions.foldl runRegAction st) hlook
        (Nat.le_trans (Nat.le_trans hr hB) (foldActions_index p.2.actions st))
        (fun q hq a ha => hrem q (List.mem_cons_of_mem p hq) a ha)
        (Or.inr rfl)).1
    · exact ih (p.2.actions.foldl runRegAction st) hmem' hact
        (fun q hq => hok q (List.mem_cons_of_mem p hq))
        (fun q hq a ha => hrem q (List.mem_cons_of_mem p hq) a ha)
        (Nat.le_trans hB (foldActions_index p.2.actions st))

theorem pending_sorted_action (st : PacketHandlerRegistry) (a : RegAction)
    (hs : ((st.pending_handler_updates.map Prod.fst).Pairwise (· < ·))) :
    (((runRegAction st a).pending_handler_updates.map Prod.fst).Pairwise
      (· < ·)) := by
  cases a with
  | registerH h =>
    exact alInsert_keys_sorted _ _ _ hs
  | removeH id =>
    exact alInsert_keys_sorted _ _ _ hs

theorem pending_sorted_actions (acts : List RegAction) :
    ∀ st, ((st.pending_handler_updates.map Prod.fst).Pairwise (· < ·)) →
      (((acts.foldl runRegAction st).pending_handler_updates.map
        Prod.fst).Pairwise (· < ·)) := by
  induction acts with
  | nil => intro st hs; exact hs
  | cons a rest ih =>
    intro st hs
    exact ih (runRegAction st a) (pending_sorted_action st a hs)

theorem pending_sorted_dispatch (l : List (Nat × HandlerB)) :
    ∀ st, ((st.pending_handler_updates.map Prod.fst).Pairwise (· < ·)) →
      (((dispatchGo st l).1.pending_handler_updates.map Prod.fst).Pairwise
        (· < ·)) := by
  induction l with
  | nil => intro st hs; exact hs
  | cons p rest ih =>
    intro st hs
    simp only [dispatchGo, runObserve]
    split
    · exact ih _ (pending_sorted_actions p.2.actions st hs)
    · exact pending_sorted_actions p.2.actions st hs

theorem pendingOk_action (st : PacketHandlerRegistry) (a : RegAction)
    (hwa : ∀ h, a = RegAction.registerH h → h.ok = true)
    (h0 : ∀ kv ∈ st.pending_handler_updates, ∀ h, kv.2 = some h → h.ok = true) :
    ∀ kv ∈ (runRegAction st a).pending_handler_updates,
      ∀ h, kv.2 = some h → h.ok = true := by
  cases a with
  | registerH h1 =>
    intro kv hkv h hh
    rcases mem_alInsert hkv with he | hm
    · subst he
      simp only at hh
      injection hh with hh
      subst hh
      exact hwa _ rfl
    · exact h0 kv hm h hh
  | removeH id =>
    intro kv hkv h hh
    rcases mem_alInsert hkv with he | hm
    · subst he
      cases hh
    · exact h0 kv hm h hh

theorem pendingOk_actions (acts : List RegAction) :
    ∀ st, (∀ a ∈ acts, ∀ h, a = RegAction.registerH h → h.ok = true) →
      (∀ kv ∈ st.pending_handler_updates, ∀ h, kv.2 = some h → h.ok = true) →
      ∀ kv ∈ (acts.foldl runRegAction st).pending_handler_updates,
        ∀ h, kv.2 = some h → h.ok = true := by
  induction acts with
  | nil => intro st _ h0; exact h0
  | cons a rest ih =>
    intro st hwa h0
    exact ih (runRegAction st a)
      (fun b hb => hwa b (List.mem_cons_of_mem a hb))
      (pendingOk_action st a (hwa a (List.mem_cons_self a rest)) h0)

theorem pendingOk_dispatch (l : List (Nat × HandlerB)) :
    ∀ st, (∀ p ∈ l, p.2.wellBehaved = true) →
      (∀ kv ∈ st.pending_handler_updates, ∀ h, kv.2 = some h → h.ok = true) →
      ∀ kv ∈ (dispatchGo st l).1.pending_handler_updates,
        ∀ h, kv.2 = some h → h.ok = true := by
  induction l with
  | nil => intro st _ h0; exact h0
  | cons p rest ih =>
    intro st hwb h0
    have hstep := pendingOk_actions p.2.actions st
      (fun a ha h he => wellBehaved_reg (hwb p (List.mem_cons_self p rest))
        (he ▸ ha)) h0
    simp only [dispatchGo, runObserve]
    split
    · exact ih _ (fun q hq => hwb q (List.mem_cons_of_mem p hq)) hstep
    · exact hstep



theorem commitStep_keys_sorted (m : List (Nat × HandlerB))
    (op : Nat × Option HandlerB)
    (hs : ((m.map Prod.fst).Pairwise (· < ·))) :
    (((commitStep m op).map Prod.fst).Pairwise (· < ·)) := by
  cases hop : op.2 with
  | some v =>
    simp only [commitStep, hop]
    exact alInsert_keys_sorted _ _ _ hs
  | none =>
    simp only [commitStep, hop]
    exact alRemove_keys_sorted _ _ hs

theorem commitStep_lookup_ne (m : List (Nat × HandlerB))
    (op : Nat × Option HandlerB) (k : Nat) (hk : k ≠ op.1) :
    alLookup k (commitStep m op) = alLookup k m := by
  cases hop : op.2 with
  | some v =>
    simp only [commitStep, hop]
    exact alLookup_alInsert_ne _ _ _ _ hk
  | none =>
    simp only [commitStep, hop]
    exact alLookup_alRemove_ne _ _ _ hk

theorem foldCommit_lookup (ops : List (Nat × Option HandlerB)) :
    ∀ (m : List (Nat × HandlerB)) (k : Nat),
      ((ops.map Prod.fst).Pairwise (· < ·)) →
      ((m.map Prod.fst).Pairwise (· < ·)) →
      alLookup k (ops.foldl commitStep m) =
        (match alLookup k ops with
         | some (some v) => some v
         | some none => none
         | none => alLookup k m) := by
  induction ops with
  | nil => intro m k _ _; rfl
  | cons op rest ih =>
    intro m k hOps hM
    simp only [List.map_cons, List.pairwise_cons] at hOps
    have hM' := commitStep_keys_sorted m op hM
    rw [List.foldl_cons, ih (commitStep m op) k hOps.2 hM']
    by_cases hk : k = op.1
    · have hrest : alLookup k rest = none := by
        rw [alLookup_eq_none_iff]
        intro hc
        have := hOps.1 k hc
        omega
      rw [hrest]
      have hhead : alLookup k (op :: rest) = some op.2 := by
        simp [alLookup, hk]
      rw [hhead]
      cases hop : op.2 with
      | some v =>
        simp only [commitStep, hop]
        rw [hk]
        exact alLookup_alInsert_self _ _ _
      | none =>
        simp only [commitStep, hop]
        rw [hk]
        exact alLookup_alRemove_self _ _ (nodup_of_keys_sorted hM)
    · have hhead : alLookup k (op :: rest) = alLookup k rest := by
        simp [alLookup, hk]
      rw [hhead]
      cases hrest : alLookup k rest with
      | some w => cases w <;> rfl
      | none => exact commitStep_lookup_ne m op k hk

theorem foldCommit_mem (ops : List (Nat × Option HandlerB)) :
    ∀ (m : List (Nat × HandlerB)) (q : Nat × HandlerB),
      q ∈ ops.foldl commitStep m →
      q ∈ m ∨ (q.1, some q.2) ∈ ops := by
  induction ops with
  | nil => intro m q h; exact Or.inl h
  | cons op rest ih =>
    intro m q h
    rw [List.foldl_cons] at h
    rcases ih (commitStep m op) q h with hm | hops
    · cases hop : op.2 with
      | some v =>
        rw [commitStep, hop] at hm
        rcases mem_alInsert hm with he | hm'
        · right
          rw [he]
          simp only [List.mem_cons]
          left
          rw [← hop]
        · exact Or.inl hm'
      | none =>
        rw [commitStep, hop] at hm
        exact Or.inl (mem_alRemove hm)
    · exact Or.inr (List.mem_cons_of_mem op hops)



theorem handle_eq (st : PacketHandlerRegistry)
    (hsucc : (dispatchGo st st.handler).2.2 = true) :
    st.handle = (commit_post_handle_updates (dispatchGo st st.handler).1,
      (dispatchGo st st.handler).2.1, true) := by
  simp only [PacketHandlerRegistry.handle, hsucc, if_true]

theorem handle_invoked (st : PacketHandlerRegistry)
    (hok : ∀ p ∈ st.handler, p.2.ok = true) :
    (st.handle).2.1 = st.handler.map Prod.fst ∧ (st.handle).2.2 = true := by
  have hd := dispatchGo_invoked st.handler st hok
  rw [handle_eq st hd.2]
  exact ⟨hd.1, rfl⟩

/-- C7: for a well-formed registry (no pending updates, ascending unique
ids bounded by the counter, handlers whose callbacks succeed and whose
removals target existing ids), dispatching a packet (i) invokes exactly the
handlers present at dispatch start, in map order, and succeeds; (ii) a
handler registered from inside a callback gets a fresh id that is not
invoked for the current packet but is in the map afterwards and is invoked
by the very next dispatch; (iii) a removal requested from inside a callback
leaves the current iteration intact (the removed id still runs for the
current packet) and takes effect before the next dispatch, which no longer
invokes it. -/
theorem c7_handler_reentrancy (st : PacketHandlerRegistry)
    (hpend : st.pending_handler_updates = [])
    (hsorted : ((st.handler.map Prod.fst).Pairwise (· < ·)))
    (hwb : ∀ p ∈ st.handler, HandlerB.wellBehaved p.2 = true)
    (hids : ∀ p ∈ st.handler, p.1 ≤ st.handler_index)
    (hrem : ∀ p ∈ st.handler, ∀ a ∈ HandlerB.actions p.2,
      RegAction.remOk a st.handler_index = true) :
    ((st.handle).2.1 = st.handler.map Prod.fst ∧ (st.handle).2.2 = true) ∧
    (∀ i₀ h₀ h', (i₀, h₀) ∈ st.handler →
      RegAction.registerH h' ∈ h₀.actions →
      ∃ id', id' ∉ st.handler.map Prod.fst ∧
        alLookup id' (st.handle).1.handler = some h' ∧
        id' ∉ (st.handle).2.1 ∧
        id' ∈ ((st.handle).1.handle).2.1) ∧
    (∀ i₁ h₁ r, (i₁, h₁) ∈ st.handler →
      RegAction.removeH r ∈ h₁.actions →
      (r ∈ st.handler.map Prod.fst → r ∈ (st.handle).2.1) ∧
      alLookup r (st.handle).1.handler = none ∧
      r ∉ ((st.handle).1.handle).2.1) := by
  have hok : ∀ p ∈ st.handler, p.2.ok = true :=
    fun p hp => wellBehaved_ok (hwb p hp)
  have hd := dispatchGo_invoked st.handler st hok
  have heq := handle_eq st hd.2
  have hhandler : (dispatchGo st st.handler).1.handler = st.handler :=
    dispatchGo_handler st.handler st
  have hpendSorted : (((dispatchGo st st.handler).1.pending_handler_updates.map
      Prod.fst).Pairwise (· < ·)) := by
    apply pending_sorted_dispatch
    rw [hpend]
    exact List.Pairwise.nil
  have hpendOk : ∀ kv ∈ (dispatchGo st st.handler).1.pending_handler_updates,
      ∀ h, kv.2 = some h → h.ok = true := by
    apply pendingOk_dispatch st.handler st hwb
    rw [hpend]
    intro kv hkv
    cases hkv
  have hlookAll : ∀ k, alLookup k (st.handle).1.handler =
      (match alLookup k (dispatchGo st st.handler).1.pending_handler_updates with
       | some (some v) => some v
       | some none => none
       | none => alLookup k st.handler) := by
    intro k
    rw [heq]
    show alLookup k
      ((dispatchGo st st.handler).1.pending_handler_updates.foldl commitStep
        (dispatchGo st st.handler).1.handler) = _
    rw [foldCommit_lookup _ _ k hpendSorted (by rw [hhandler]; exact hsorted),
      hhandler]
  have hmem₂ : ∀ q ∈ (st.handle).1.handler, q.2.ok = true := by
    intro q hq
    rw [heq] at hq
    rcases foldCommit_mem (dispatchGo st st.handler).1.pending_handler_updates
      (dispatchGo st st.handler).1.handler q hq with hm | hp
    · exact hok q (hhandler ▸ hm)
    · exact hpendOk (q.1, some q.2) hp q.2 rfl
  have hinv₂ := handle_invoked (st.handle).1 hmem₂
  refine ⟨⟨by rw [heq]; exact hd.1, by rw [heq]⟩, ?_, ?_⟩
  · intro i₀ h₀ h' hmem hact
    obtain ⟨id', hBid, hle, hlook'⟩ := register_creates_dispatch st.handler h'
      i₀ h₀ st.handler_index st hmem hact hok hrem (Nat.le_refl _)
    have hnotin : id' ∉ st.handler.map Prod.fst := by
      intro hc
      rcases List.mem_map.1 hc with ⟨p, hp, hpk⟩
      have := hids p hp
      omega
    have hl₂ : alLookup id' (st.handle).1.handler = some h' := by
      rw [hlookAll id', hlook']
    refine ⟨id', hnotin, hl₂, ?_, ?_⟩
    · rw [heq]
      show id' ∉ (dispatchGo st st.handler).2.1
      rw [hd.1]
      exact hnotin
    · rw [hinv₂.1]
      exact mem_keys_of_alLookup hl₂
  · intro i₁ h₁ r hmem hact
    have hlookr := remove_creates_dispatch st.handler r i₁ h₁ st.handler_index
      st hmem hact hok hrem (Nat.le_refl _)
    have hl₂ : alLookup r (st.handle).1.handler = none := by
      rw [hlookAll r, hlookr]
    refine ⟨?_, hl₂, ?_⟩
    · intro hr
      rw [heq]
      show r ∈ (dispatchGo st st.handler).2.1
      rw [hd.1]
      exact hr
    · rw [hinv₂.1]
      exact (alLookup_eq_none_iff _ _).1 hl₂



/-- C7 witness: in `c7Reg` (ids 1..3; 1 registers `hQuiet`, 2 removes
itself) the dispatch invokes exactly 1, 2, 3; the new handler appears under
a fresh id, missed the current packet, and runs on the next dispatch; id 2
is gone from the map and from the next dispatch. -/
theorem c7_handler_reentrancy_witness :
    (c7Reg.handle).2.1 = [1, 2, 3] ∧
    (∃ id', id' ∉ ([1, 2, 3] : List Nat) ∧
      alLookup id' (c7Reg.handle).1.handler = some hQuiet ∧
      id' ∉ (c7Reg.handle).2.1 ∧
      id' ∈ ((c7Reg.handle).1.handle).2.1) ∧
    alLookup 2 (c7Reg.handle).1.handler = none ∧
    2 ∉ ((c7Reg.handle).1.handle).2.1 := by
  have h := c7_handler_reentrancy c7Reg rfl (by decide) (by decide) (by decide) (by decide)
  refine ⟨h.1.1, ?_, ?_, ?_⟩
  · exact h.2.1 1 hRegistering hQuiet (List.mem_cons_self _ _)
      (List.mem_cons_self _ _)
  · exact (h.2.2 2 hSelfRemoving 2
      (List.mem_cons_of_mem _ (List.mem_cons_self _ _))
      (List.mem_cons_self _ _)).2.1
  · exact (h.2.2 2 hSelfRemoving 2
      (List.mem_cons_of_mem _ (List.mem_cons_self _ _))
      (List.mem_cons_self _ _)).2.2

end Protanki
